import Mathlib

set_option maxRecDepth 8000

/-!
Verification of the leanbar status bar: shallow embedding of the workspace
event handler, the battery formatting and estimate logic, the glyph atlas
serialization, the string-glyph compositor, and the damage-tracked renderer,
with theorems checking the specification's claims against the code.
-/

namespace Leanbar

/-! ### Workspace event handling (src/threads/hyprland.rs) -/

/-- Published workspace state: the `ACTIVE_WORKSPACE` atomic together with the
ten `WORKSPACES` occupancy flags declared in `src/main.rs`. -/
structure WsState where
  active : Nat
  occupied : List Bool
deriving DecidableEq

/-- ASCII whitespace predicate.  Rust's `str::trim` removes Unicode
whitespace; the ASCII subset is what matters for the line-oriented events,
whose payload characters are letters, `>` and digits. -/
def isWs (c : Char) : Bool :=
  c = ' ' || c = '\t' || c = '\n' || c = '\r'

/-- Rust `str::trim` on the character list of the event line. -/
def trimChars (cs : List Char) : List Char :=
  ((cs.dropWhile isWs).reverse.dropWhile isWs).reverse

/-- Digit-string part of Rust `str::parse::<u8>`: one or more ASCII digits
whose value fits in a `u8`.  The source's checked arithmetic overflows exactly
when the final value exceeds 255, because every prefix of a digit string has a
value no larger than the whole string's value. -/
def parseDigitsU8 (cs : List Char) : Option Nat :=
  if cs ≠ [] ∧ cs.all Char.isDigit then
    let v := cs.foldl (fun acc c => 10 * acc + (c.toNat - 48)) 0
    if v ≤ 255 then some v else none
  else none

/-- Rust `str::parse::<u8>`: an optional leading `+` sign followed by digits. -/
def parseU8 (cs : List Char) : Option Nat :=
  match cs with
  | '+' :: rest => parseDigitsU8 rest
  | _ => parseDigitsU8 cs

/-- Rust `str::strip_prefix` on character lists. -/
def stripPre (pat cs : List Char) : Option (List Char) :=
  match pat, cs with
  | [], rest => some rest
  | p :: ps, c :: rest => if c = p then stripPre ps rest else none
  | _ :: _, [] => none

/-- Event-name byte sequences used by `handle_event`. -/
def wsPre : List Char := "workspace>>".data

def createPre : List Char := "createworkspace>>".data

def destroyPre : List Char := "destroyworkspace>>".data

/-- Transcription of `handle_event` in `src/threads/hyprland.rs` (lines
89-117).  The `ping_main_thread` call carries no workspace state and is
dropped.  Note the `workspace>>` arm stores into `ACTIVE_WORKSPACE`
unconditionally once the number parses; only the occupancy store is guarded
by `ws > 0 && ws <= 10`. -/
def handleEvent (event : List Char) (st : WsState) : WsState :=
  let ev := trimChars event
  match stripPre wsPre ev with
  | some wsStr =>
    match parseU8 wsStr with
    | some ws =>
      let st := { st with active := ws }
      if 0 < ws ∧ ws ≤ 10 then
        { st with occupied := st.occupied.set (ws - 1) true }
      else st
    | none => st
  | none =>
    match stripPre createPre ev with
    | some wsStr =>
      match parseU8 wsStr with
      | some ws =>
        if 0 < ws ∧ ws ≤ 10 then
          { st with occupied := st.occupied.set (ws - 1) true }
        else st
      | none => st
    | none =>
      match stripPre destroyPre ev with
      | some wsStr =>
        match parseU8 wsStr with
        | some ws =>
          if 0 < ws ∧ ws ≤ 10 then
            { st with occupied := st.occupied.set (ws - 1) false }
          else st
        | none => st
      | none => st

/-! ### Battery slot glyph sequence (src/app_state.rs, battery branch) -/

/-- Identity of a glyph in the 19-glyph cache. -/
inductive GlyphId where
  | digit (d : Nat)
  | am
  | pm
  | slash
  | colon
  | space
  | percent
  | plus
  | minus
  | full
deriving DecidableEq

/-- The sequence of `draw_char` calls (glyph identity, trailing margin) issued
by the battery branch of `AppState::draw_bar` (src/app_state.rs lines
484-520), as a function of the sampled battery fields.  `est_h` is cast to
`u8` in the source, hence the `% 256`; the `u8` cast of `est_m` is the
identity because `estMTotal % 60 < 60`. -/
def batteryCalls (percent state estMTotal : Nat) : List (GlyphId × Nat) :=
  if state = 3 then [(.full, 0)]
  else
    (if percent = 100 then [(.digit 1, 1), (.digit 0, 1), (.digit 0, 1)]
     else if 10 ≤ percent then
       [(.digit (percent / 10), 1), (.digit (percent % 10), 1)]
     else [(.digit percent, 1)])
    ++ [(.percent, 0), (.space, 1), (.space, 1)]
    ++ (if state = 2 then [(.plus, 0)] else [(.minus, 0)])
    ++ [(.space, 1), (.space, 1)]
    ++ (let estH := estMTotal / 60 % 256
        let estM := estMTotal % 60
        [(.digit (estH / 10), 1), (.digit (estH % 10), 1), (.colon, 1),
         (.digit (estM / 10), 1), (.digit (estM % 10), 0)])

/-- Recognizer for digit glyphs. -/
def isDigitGlyph : GlyphId → Bool
  | .digit _ => true
  | _ => false

/-! ### Battery remaining-time estimate (src/threads/linux_poll.rs) -/

/-- Estimate computation of `update_battery_state` (src/threads/linux_poll.rs
lines 94-124).  The source computes `charge / rate` and `* 60.0` in `f64` and
casts to `u16`; for the nonnegative integer inputs read from sysfs the cast
truncates toward zero and saturates at 65535, so under exact real arithmetic
the result is `min (60 * charge / rate) 65535` with `/` the floor division on
`Nat` (f64 rounding error is not modelled). -/
def computeEstimate (state chargeNow currentNow chargeFull : Nat) : Nat :=
  if state = 1 ∨ state = 2 then
    if 0 < currentNow then
      if state = 1 then min (60 * chargeNow / currentNow) 65535
      else if state = 2 then
        if chargeNow < chargeFull then
          min (60 * (chargeFull - chargeNow) / currentNow) 65535
        else 0
      else 0
    else 0
  else 0

/-! ### Glyph cache and atlas serialization (src/font_renderer.rs) -/

/-- A rasterized glyph: ink width and height in pixels, one coverage byte per
pixel (`RasterizedGlyph` in src/font_renderer.rs). -/
structure RasterizedGlyph where
  width : Nat
  height : Nat
  coverage : List Nat
deriving DecidableEq, Inhabited

/-- The fixed 19-glyph cache (`GlyphCache` in src/font_renderer.rs).  The
`[RasterizedGlyph; 10]` digit array is modelled as a list;
`GlyphCache.fromVec` checks its length exactly as the source's `try_into`
does. -/
structure GlyphCache where
  numbers : List RasterizedGlyph
  am : RasterizedGlyph
  pm : RasterizedGlyph
  slash : RasterizedGlyph
  colon : RasterizedGlyph
  space : RasterizedGlyph
  percent : RasterizedGlyph
  plus : RasterizedGlyph
  minus : RasterizedGlyph
  full : RasterizedGlyph
deriving DecidableEq

/-- Source `GlyphCache::as_slice_ordered`: the fixed serialization order (the source
lists `numbers[0]` through `numbers[9]` explicitly; for the length-10 digit
list this is the same sequence). -/
def GlyphCache.asSliceOrdered (g : GlyphCache) : List RasterizedGlyph :=
  g.numbers ++ [g.am, g.pm, g.slash, g.colon, g.space, g.percent, g.plus, g.minus, g.full]

/-- Source `GlyphCache::from_vec`: requires exactly 19 glyphs and splits them in
serialization order (the source pops the nine named glyphs off the end and
converts the remaining ten into the digit array, which is the same
decomposition). -/
def GlyphCache.fromVec (all : List RasterizedGlyph) : Except String GlyphCache :=
  match all with
  | [n0, n1, n2, n3, n4, n5, n6, n7, n8, n9,
     gam, gpm, gslash, gcolon, gspace, gpercent, gplus, gminus, gfull] =>
    .ok ⟨[n0, n1, n2, n3, n4, n5, n6, n7, n8, n9],
      gam, gpm, gslash, gcolon, gspace, gpercent, gplus, gminus, gfull⟩
  | _ => .error "invalid glyph count"

/-- Little-endian byte encoding of `v` on `k` bytes, as produced by the
`to_le_bytes` calls in `write_u16`/`write_u32`/`write_u64`; a wider value is
truncated exactly as the source's integer casts are. -/
def leBytes : Nat → Nat → List Nat
  | 0, _ => []
  | k + 1, v => v % 256 :: leBytes k (v / 256)

/-- Little-endian decoding, as in `u16::from_le_bytes` and friends. -/
def decodeLE (bs : List Nat) : Nat :=
  bs.foldr (fun b acc => b + 256 * acc) 0

def writeU16 (v : Nat) : List Nat := leBytes 2 v

def writeU32 (v : Nat) : List Nat := leBytes 4 v

def writeU64 (v : Nat) : List Nat := leBytes 8 v

/-- Rust `Read::read_exact` into an `n`-byte buffer, on a byte-list stream:
yields the bytes and the remaining stream, failing if the stream is short. -/
def readBytes (n : Nat) (s : List Nat) : Option (List Nat × List Nat) :=
  if n ≤ s.length then some (s.take n, s.drop n) else none

def readU16 (s : List Nat) : Option (Nat × List Nat) :=
  (readBytes 2 s).map fun p => (decodeLE p.1, p.2)

def readU32 (s : List Nat) : Option (Nat × List Nat) :=
  (readBytes 4 s).map fun p => (decodeLE p.1, p.2)

def readU64 (s : List Nat) : Option (Nat × List Nat) :=
  (readBytes 8 s).map fun p => (decodeLE p.1, p.2)

/-- The serialized record of one glyph inside the atlas file:
width as u16, height as u16, coverage length as u32, then the coverage
bytes (`GlyphCache::write_atlas` loop body). -/
def glyphBytes (gl : RasterizedGlyph) : List Nat :=
  writeU16 gl.width ++ writeU16 gl.height ++ writeU32 gl.coverage.length ++ gl.coverage

/-- The `LBAT1` magic bytes. -/
def atlasMagic : List Nat := [76, 66, 65, 84, 49]

/-- Source `GlyphCache::write_atlas` (src/font_renderer.rs lines 126-156): the byte
stream written to the atlas file, given the font path (as its byte sequence),
the font file's modification time `(seconds, nanoseconds)` and the size bit
pattern. -/
def writeAtlas (g : GlyphCache) (fontPath : List Nat) (mtime : Nat × Nat)
    (sizeBits : Nat) : List Nat :=
  atlasMagic ++ writeU32 fontPath.length ++ fontPath
    ++ writeU64 mtime.1 ++ writeU32 mtime.2 ++ writeU32 sizeBits
    ++ g.asSliceOrdered.flatMap glyphBytes

/-- One glyph record read back (`load_from_atlas` loop body). -/
def readGlyph (s : List Nat) : Option (RasterizedGlyph × List Nat) :=
  (readU16 s).bind fun (w, s) =>
  (readU16 s).bind fun (h, s) =>
  (readU32 s).bind fun (covLen, s) =>
  (readBytes covLen s).map fun (cov, s) => (⟨w, h, cov⟩, s)

/-- The `GLYPH_COUNT` iterations of the glyph-record read loop. -/
def readGlyphs : Nat → List Nat → Option (List RasterizedGlyph × List Nat)
  | 0, s => some ([], s)
  | k + 1, s =>
    (readGlyph s).bind fun (g, s) =>
    (readGlyphs k s).map fun (gs, s) => (g :: gs, s)

/-- Sequencing helper: a failed read surfaces as the I/O error of the `?`
operator in the source; a successful read continues. -/
def ioRead {α β : Type} (r : Option (α × List Nat))
    (k : α → List Nat → Except String β) : Except String β :=
  match r with
  | none => .error "atlas io error"
  | some (a, s) => k a s

/-- Source `GlyphCache::load_from_atlas` (src/font_renderer.rs lines 158-208) on the
atlas byte stream.  `expectedPath` is the requested font path as its byte
sequence (the source decodes the stored bytes with `String::from_utf8` and
compares strings, which for the valid UTF-8 the writer stores is byte
equality); `currentMtime` is `font_mtime(expected_font_path)` read at load
time; `expectedSizeBits` is `size.to_bits()` of the requested size. -/
def loadFromAtlas (expectedPath : List Nat) (expectedSizeBits : Nat)
    (currentMtime : Nat × Nat) (s : List Nat) : Except String GlyphCache :=
  ioRead (readBytes 5 s) fun magic s =>
  if magic ≠ atlasMagic then .error "invalid atlas magic" else
  ioRead (readU32 s) fun pathLen s =>
  ioRead (readBytes pathLen s) fun atlasFontPath s =>
  ioRead (readU64 s) fun mtimeSec s =>
  ioRead (readU32 s) fun mtimeNsec s =>
  ioRead (readU32 s) fun sizeBits s =>
  if atlasFontPath ≠ expectedPath then .error "atlas font path mismatch" else
  if currentMtime ≠ (mtimeSec, mtimeNsec) then .error "atlas font timestamp mismatch" else
  if sizeBits ≠ expectedSizeBits then .error "atlas font size mismatch" else
  ioRead (readGlyphs 19 s) fun glyphs _ =>
  GlyphCache.fromVec glyphs

/-- Representability of a glyph's dimensions in the atlas record format. -/
def glyphFits (gl : RasterizedGlyph) : Prop :=
  gl.width < 65536 ∧ gl.height < 65536 ∧ gl.coverage.length < 4294967296

instance (gl : RasterizedGlyph) : Decidable (glyphFits gl) := by
  unfold glyphFits; infer_instance

/-- Error recognizer on atlas load results. -/
def loadFailed : Except String GlyphCache → Bool
  | .error _ => true
  | .ok _ => false

/-- A small concrete glyph cache used as witness data. -/
def witnessCache : GlyphCache :=
  { numbers := List.replicate 10 ⟨1, 1, [17]⟩
    am := ⟨2, 1, [1, 2]⟩, pm := ⟨1, 1, [3]⟩, slash := ⟨1, 1, [4]⟩
    colon := ⟨1, 1, [5]⟩, space := ⟨1, 1, [0]⟩, percent := ⟨1, 1, [6]⟩
    plus := ⟨1, 1, [7]⟩, minus := ⟨1, 1, [8]⟩, full := ⟨2, 2, [9, 9, 9, 9]⟩ }

/-! ### String-glyph composition (src/font_renderer.rs, rasterize_string) -/

/-- The fontdue glyph metrics that `font.rasterize` returns and
`rasterize_string` destructures: ink box size and placement plus the
horizontal advance.  `advance_width` is `f32` in fontdue; it is modelled as
an integer because the source never reads it, and integer advances suffice to
compare the source against the specification's algorithm. -/
structure Metrics where
  width : Nat
  height : Nat
  xmin : Int
  ymin : Int
  advanceWidth : Int
deriving DecidableEq, Inhabited

/-- A font at the fixed rasterization size: `font.rasterize(c, size)` is a
deterministic map from a character to its metrics and coverage bitmap. -/
def FontAt : Type := Char → Metrics × List Nat

/-- One row of the copy loop in `rasterize_string`: write `n` bytes of `src`
starting at `srcBase` into `dst` starting at `dstBase`, left to right. -/
def setRow (dst src : List Nat) (dstBase srcBase : Nat) : Nat → List Nat
  | 0 => dst
  | n + 1 =>
    setRow (dst.set dstBase (src.getD srcBase 0)) src (dstBase + 1) (srcBase + 1) n

/-- The nested copy loops of `rasterize_string`: copy `rows` rows of a glyph
bitmap of width `w` into the composed buffer of row width `tw` at horizontal
offset `cx`; glyph row `y` lands at destination offset `y * tw + cx`. -/
def copyGlyphRows (dst src : List Nat) (tw cx w : Nat) : Nat → List Nat
  | 0 => dst
  | y + 1 => setRow (copyGlyphRows dst src tw cx w y) src (y * tw + cx) (y * w) w

/-- The glyph loop of `rasterize_string`: each glyph's rows are copied at the
running horizontal offset `cx`, which then advances by that glyph's ink
width. -/
def compositeGlyphs (tw : Nat) : List (Metrics × List Nat) → Nat → List Nat → List Nat
  | [], _, dst => dst
  | g :: gs, cx, dst =>
    compositeGlyphs tw gs (cx + g.1.width) (copyGlyphRows dst g.2 tw cx g.1.width g.1.height)

/-- Sum of the ink widths of a glyph sequence (`total_width`). -/
def sumWidths (gs : List (Metrics × List Nat)) : Nat :=
  (gs.map fun g => g.1.width).sum

/-- Horizontal offset at which character `i`'s bitmap is copied: the sum of
the preceding characters' ink widths. -/
def inkOffset (gs : List (Metrics × List Nat)) (i : Nat) : Nat :=
  sumWidths (gs.take i)

/-- Source `rasterize_string` (src/font_renderer.rs lines 356-389): the composed
glyph takes the sum of the characters' ink widths, the maximum of their ink
heights, and a zero-initialized coverage buffer of that size into which every
character's bitmap is copied at consecutive horizontal offsets (the source
accumulates widths, heights and bitmaps in one loop and then runs the copy
loop, here `compositeGlyphs`). -/
def rasterizeString (font : FontAt) (s : List Char) : RasterizedGlyph :=
  let glyphs := s.map font
  let totalWidth := sumWidths glyphs
  let maxHeight := (glyphs.map fun g => g.1.height).foldl max 0
  ⟨totalWidth, maxHeight,
    compositeGlyphs totalWidth glyphs 0 (List.replicate (totalWidth * maxHeight) 0)⟩

/-- The composition algorithm as the specification's words describe it, for
comparison with the source: the pen starts at 0 and accumulates each
character's horizontal advance; a character's ink occupies the horizontal
span from `pen + xmin` of length `width` and the vertical span from `ymin` of
length `height`; the bounding box spans all characters' ink; one coverage
buffer of that size is allocated (rows stored top-down) and every character
is composited at its offset, taking the per-pixel maximum where ink
overlaps. -/
def rasterizeStringSpec (font : FontAt) (s : List Char) : RasterizedGlyph :=
  let glyphs := s.map font
  let pens := (glyphs.foldl (fun (acc : List Int × Int) g =>
      (acc.1 ++ [acc.2], acc.2 + g.1.advanceWidth)) ([], 0)).1
  let pairs := glyphs.zip pens
  match pairs with
  | [] => ⟨0, 0, []⟩
  | p0 :: _ =>
    let minX := (pairs.map fun p => p.2 + p.1.1.xmin).foldl min (p0.2 + p0.1.1.xmin)
    let maxX := (pairs.map fun p => p.2 + p.1.1.xmin + (p.1.1.width : Int)).foldl max
      (p0.2 + p0.1.1.xmin + (p0.1.1.width : Int))
    let minY := (pairs.map fun p => p.1.1.ymin).foldl min p0.1.1.ymin
    let maxY := (pairs.map fun p => p.1.1.ymin + (p.1.1.height : Int)).foldl max
      (p0.1.1.ymin + (p0.1.1.height : Int))
    let w := (maxX - minX).toNat
    let hgt := (maxY - minY).toNat
    let cov := (List.range (w * hgt)).map fun idx =>
      let px : Int := idx % w
      let py : Int := idx / w
      pairs.foldl (fun acc p =>
        let gx : Int := px + minX - (p.2 + p.1.1.xmin)
        let gy : Int := py - (maxY - (p.1.1.ymin + p.1.1.height))
        if 0 ≤ gx ∧ gx < (p.1.1.width : Int) ∧ 0 ≤ gy ∧ gy < (p.1.1.height : Int) then
          max acc (p.1.2.getD (gy.toNat * p.1.1.width + gx.toNat) 0)
        else acc) 0
    ⟨w, hgt, cov⟩

/-- A two-character font whose horizontal advances (2) exceed its ink widths
(1), separating the source's composition from the specification's. -/
def fontCE : FontAt := fun c =>
  if c = 'A' then (⟨1, 1, 0, 0, 2⟩, [200]) else (⟨1, 1, 0, 0, 2⟩, [100])

/-! ### Renderer state and damage tracking (src/app_state.rs) -/

/-- The shared-memory pixel region as a byte store indexed by offset; the
renderer only ever writes it, so function updates model the mutations. -/
def Buf : Type := Nat → Nat

/-- Store one byte. -/
def setByte (b : Buf) (i v : Nat) : Buf := fun j => if j = i then v else b j

/-- A `[u8; 4]` color in the source's `[b-ish, g-ish, r-ish, alpha]` layout:
`c0`,`c1`,`c2` feed the blue, green and red output channels and `c3` is the
alpha. -/
structure Color where
  c0 : Nat
  c1 : Nat
  c2 : Nat
  c3 : Nat
deriving DecidableEq

/-- One iteration of the inner loop of `draw_glyph` (src/app_state.rs lines
550-577) at glyph coordinates `(gx, gy)`: skipped when clipped vertically at
the fixed constant 28, clipped horizontally at `stride / 4`, or when the
coverage byte is zero; otherwise the four BGRA bytes are computed with the
straight alpha-over-black math and stored premultiplied. -/
def drawGlyphPixel (pixels : Buf) (stride startX startY : Nat) (color : Color)
    (glyph : RasterizedGlyph) (gy gx : Nat) : Buf :=
  let py := startY + gy
  if 28 ≤ py then pixels
  else
    let px := startX + gx
    if stride / 4 ≤ px then pixels
    else
      let alpha := glyph.coverage.getD (gy * glyph.width + gx) 0
      if alpha = 0 then pixels
      else
        let dstIdx := py * stride + px * 4
        let a := color.c3 * alpha / 255
        let b := color.c0 * a / 255
        let g := color.c1 * a / 255
        let r := color.c2 * a / 255
        setByte (setByte (setByte (setByte pixels dstIdx b)
          (dstIdx + 1) g) (dstIdx + 2) r) (dstIdx + 3) a

/-- The inner `gx` loop of `draw_glyph`, over `n` columns. -/
def drawGlyphRow (stride startX startY : Nat) (color : Color)
    (glyph : RasterizedGlyph) (gy : Nat) (pixels : Buf) : Nat → Buf
  | 0 => pixels
  | gx + 1 =>
    drawGlyphPixel (drawGlyphRow stride startX startY color glyph gy pixels gx)
      stride startX startY color glyph gy gx

/-- The outer `gy` loop of `draw_glyph`, over `n` rows of `glyph.width`
columns each. -/
def drawGlyphRows (stride startX startY : Nat) (color : Color)
    (glyph : RasterizedGlyph) (pixels : Buf) : Nat → Buf
  | 0 => pixels
  | gy + 1 =>
    drawGlyphRow stride startX startY color glyph gy
      (drawGlyphRows stride startX startY color glyph pixels gy) glyph.width

/-- Source `AppState::draw_glyph` (src/app_state.rs lines 538-579). -/
def drawGlyph (pixels : Buf) (stride startX startY : Nat) (color : Color)
    (glyph : RasterizedGlyph) : Buf :=
  if glyph.coverage = [] then pixels
  else drawGlyphRows stride startX startY color glyph pixels glyph.height

/-- Rust `slice[start..start+len].fill(0)` on the byte store. -/
def fillZero (b : Buf) (start len : Nat) : Buf :=
  fun i => if start ≤ i ∧ i < start + len then 0 else b i

/-- The unguarded clear loop of the workspace slot: for each of `rows` rows,
zero `wBytes` bytes starting at column byte `x0 * 4`. -/
def clearRows (b : Buf) (stride x0 wBytes : Nat) : Nat → Buf
  | 0 => b
  | y + 1 => fillZero (clearRows b stride x0 wBytes y) (y * stride + x0 * 4) wBytes

/-- The guarded clear loops of the date/time/battery slots: a row is zeroed
only when its end offset stays within `len`. -/
def clearRowsGuarded (b : Buf) (stride x0 wBytes len : Nat) : Nat → Buf
  | 0 => b
  | y + 1 =>
    let start := y * stride + x0 * 4
    let prev := clearRowsGuarded b stride x0 wBytes len y
    if start + wBytes ≤ len then fillZero prev start wBytes else prev

/-- Resolve a glyph identity in the cache.  Digit indices are produced in
range by the callers (`d / 10`, `d % 10` of two-digit values), matching the
source's direct array indexing; out-of-range indices fall back to the default
glyph. -/
def GlyphCache.lookup (g : GlyphCache) : GlyphId → RasterizedGlyph
  | .digit d => g.numbers.getD d default
  | .am => g.am
  | .pm => g.pm
  | .slash => g.slash
  | .colon => g.colon
  | .space => g.space
  | .percent => g.percent
  | .plus => g.plus
  | .minus => g.minus
  | .full => g.full

/-- The `draw_char` closure folded over a call sequence: each glyph is drawn
at the running x, vertically centered via `(28 - height) / 2` (`Nat`
subtraction is the source's `saturating_sub`), and the x advances by the
glyph width plus the trailing margin.  Returns the buffer and final x. -/
def drawSeq (b : Buf) (stride x0 : Nat) (color : Color) (g : GlyphCache) :
    List (GlyphId × Nat) → Buf × Nat
  | [] => (b, x0)
  | (gid, margin) :: rest =>
    let gl := g.lookup gid
    let y := (28 - gl.height) / 2
    let b := drawGlyph b stride x0 y color gl
    drawSeq b stride (x0 + gl.width + margin) color g rest

/-- As `drawSeq`, with a per-item color (the workspace loop picks the focused
or unfocused color per workspace). -/
def drawSeqColored (stride : Nat) (g : GlyphCache) (b : Buf) (x0 : Nat) :
    List (GlyphId × Color × Nat) → Buf
  | [] => b
  | (gid, color, margin) :: rest =>
    let gl := g.lookup gid
    let y := (28 - gl.height) / 2
    drawSeqColored stride g (drawGlyph b stride x0 y color gl)
      (x0 + gl.width + margin) rest

def colorTime : Color := ⟨0xf7, 0xa6, 0xcb, 0xff⟩

def colorWsFocused : Color := ⟨0xff, 0xff, 0xff, 0xff⟩

def colorWsOther : Color := ⟨0xf7, 0xa6, 0xcb, 0xff⟩

def colorDate : Color := ⟨0xec, 0xc7, 0x74, 0xff⟩

def colorBat : Color := ⟨0xa1, 0xe3, 0xa6, 0xff⟩

/-- The `draw_char` calls of the date slot (src/app_state.rs lines 399-406). -/
def dateCalls (day month year : Nat) : List (GlyphId × Nat) :=
  [(.digit (day / 10), 1), (.digit (day % 10), 1), (.slash, 1),
   (.digit (month / 10), 1), (.digit (month % 10), 1), (.slash, 1),
   (.digit (year / 10), 1), (.digit (year % 10), 0)]

/-- The `draw_char` calls of the time slot (src/app_state.rs lines 437-452),
with the 12-hour display conversion. -/
def timeCalls (h m : Nat) : List (GlyphId × Nat) :=
  let displayH := if h = 0 then 12 else if 12 < h then h - 12 else h
  let amPm : GlyphId := if 12 ≤ h then .pm else .am
  [(.digit (displayH / 10), 1), (.digit (displayH % 10), 1), (.colon, 1),
   (.digit (m / 10), 1), (.digit (m % 10), 1), (.space, 1), (amPm, 0)]

/-- The workspace loop (src/app_state.rs lines 327-373): workspaces 1-10 are
drawn left to right when occupied or active, the active one in the focused
color; workspace 10 is drawn as the two glyphs "1","0" with margins 1 and 10,
the others as their digit glyph with margin 10. -/
def wsDrawList (activeWs : Nat) (current : List Bool) : List (GlyphId × Color × Nat) :=
  (List.range 10).flatMap fun i =>
    let wsNum := i + 1
    if current.getD i false || activeWs == wsNum then
      let color := if activeWs == wsNum then colorWsFocused else colorWsOther
      if wsNum = 10 then [(.digit 1, color, 1), (.digit 0, color, 10)]
      else [(.digit wsNum, color, 10)]
    else []

/-- Source `AppState::date_content_width` (src/app_state.rs lines 146-167). -/
def dateContentWidth (g : GlyphCache) (day month year : Nat) : Nat :=
  (g.lookup (.digit (day / 10))).width + 1 + (g.lookup (.digit (day % 10))).width + 1
    + g.slash.width + 1
    + (g.lookup (.digit (month / 10))).width + 1 + (g.lookup (.digit (month % 10))).width + 1
    + g.slash.width + 1
    + (g.lookup (.digit (year / 10))).width + 1 + (g.lookup (.digit (year % 10))).width

/-- Source `AppState::time_content_width` (src/app_state.rs lines 169-192). -/
def timeContentWidth (g : GlyphCache) (h m : Nat) : Nat :=
  let displayH := if h = 0 then 12 else if 12 < h then h - 12 else h
  let amPm := if 12 ≤ h then g.pm else g.am
  (g.lookup (.digit (displayH / 10))).width + 1
    + (g.lookup (.digit (displayH % 10))).width + 1
    + g.colon.width + 1
    + (g.lookup (.digit (m / 10))).width + 1 + (g.lookup (.digit (m % 10))).width + 1
    + g.space.width + 1 + amPm.width

/-- Source `AppState::battery_content_width` (src/app_state.rs lines 194-243). -/
def batteryContentWidth (g : GlyphCache) (percent state estMTotal : Nat) : Nat :=
  if state = 3 then g.full.width
  else
    (if percent = 100 then
      (g.lookup (.digit 1)).width + 1 + (g.lookup (.digit 0)).width + 1
        + (g.lookup (.digit 0)).width + 1
     else if 10 ≤ percent then
      (g.lookup (.digit (percent / 10))).width + 1
        + (g.lookup (.digit (percent % 10))).width + 1
     else (g.lookup (.digit percent)).width + 1)
    + g.percent.width
    + (g.space.width * 2 + 2)
    + (if state = 2 then g.plus.width else g.minus.width)
    + (g.space.width * 2 + 2)
    + (let estH := estMTotal / 60 % 256
       let estM := estMTotal % 60
       (g.lookup (.digit (estH / 10))).width + 1 + (g.lookup (.digit (estH % 10))).width + 1
         + g.colon.width + 1
         + (g.lookup (.digit (estM / 10))).width + 1 + (g.lookup (.digit (estM % 10))).width)

/-- One published snapshot of the cross-thread state bus: the atomics the
renderer loads at the start of `draw_bar`. -/
structure StateBus where
  activeWs : Nat
  workspaces : List Bool
  h : Nat
  m : Nat
  day : Nat
  month : Nat
  year : Nat
  batPercent : Nat
  batState : Nat
  batEstM : Nat
deriving DecidableEq

/-- The parameters of the `wl_buffer` created from the shared-memory pool:
`create_buffer(0, w, h, stride, Argb8888)`. -/
structure BufferParams where
  width : Nat
  height : Nat
  stride : Nat
deriving DecidableEq

/-- The render-thread state (`AppState` in src/app_state.rs), restricted to
the fields the damage and resize logic touches.  `pixelsNull` models the
null-pointer state of `pixels`; the protocol handles (`compositor`, `shm`,
surfaces) are owned by the out-of-scope handshake. -/
structure AppState where
  pixelsNull : Bool
  pixels : Buf
  pixelsLen : Nat
  width : Nat
  height : Nat
  configured : Bool
  buffer : Option BufferParams
  forceFullRedraw : Bool
  lastActiveWs : Nat
  lastWorkspaces : List Bool
  lastH : Nat
  lastM : Nat
  lastDay : Nat
  lastMonth : Nat
  lastYear : Nat
  lastBatPercent : Nat
  lastBatState : Nat
  lastBatEstM : Nat
  glyphs : Option GlyphCache

/-- Source `AppState::new` (src/app_state.rs lines 57-83): impossible sentinel
last-rendered values force the initial draw. -/
def AppState.new (glyphs : Option GlyphCache) : AppState :=
  { pixelsNull := true, pixels := fun _ => 0, pixelsLen := 0, width := 0, height := 0,
    configured := false, buffer := none, forceFullRedraw := true,
    lastActiveWs := 255, lastWorkspaces := List.replicate 10 false,
    lastH := 255, lastM := 255, lastDay := 255, lastMonth := 255, lastYear := 255,
    lastBatPercent := 255, lastBatState := 255, lastBatEstM := 65535, glyphs }

/-- A damage rectangle `(x, y, width, height)`; the source's `i32` values are
all nonnegative. -/
abbrev Rect : Type := Nat × Nat × Nat × Nat

/-- The slot-changed flags of `draw_bar` (the workspace comparison loop sets
the flag when any of the ten occupancy flags differs, which is list
inequality). -/
def wsChangedB (st : AppState) (bus : StateBus) : Bool :=
  st.forceFullRedraw || bus.activeWs != st.lastActiveWs
    || bus.workspaces != st.lastWorkspaces

def clockChangedB (st : AppState) (bus : StateBus) : Bool :=
  st.forceFullRedraw || bus.h != st.lastH || bus.m != st.lastM

def dateChangedB (st : AppState) (bus : StateBus) : Bool :=
  st.forceFullRedraw || bus.day != st.lastDay || bus.month != st.lastMonth
    || bus.year != st.lastYear

def batChangedB (st : AppState) (bus : StateBus) : Bool :=
  st.forceFullRedraw || bus.batPercent != st.lastBatPercent
    || bus.batState != st.lastBatState || bus.batEstM != st.lastBatEstM

/-- The workspace block of `draw_bar` (src/app_state.rs lines 319-378):
clears the leftmost `min 600 width` columns, draws the occupied/active
workspaces from x = 10, records one damage rectangle and the new
last-rendered values. -/
def wsBlock (g : GlyphCache) (bus : StateBus) (wsChanged : Bool) (stride : Nat)
    (st : AppState) : AppState × List Rect :=
  if wsChanged then
    let wsAreaWidth := min 600 st.width
    let buf := clearRows st.pixels stride 0 (wsAreaWidth * 4) st.height
    let buf := drawSeqColored stride g buf 10 (wsDrawList bus.activeWs bus.workspaces)
    ({ st with
        pixels := buf, lastActiveWs := bus.activeWs,
        lastWorkspaces := bus.workspaces },
     [(0, 0, wsAreaWidth, st.height)])
  else (st, [])

/-- The date block of `draw_bar` (src/app_state.rs lines 380-416). -/
def dateBlock (g : GlyphCache) (bus : StateBus) (dateChanged : Bool)
    (dateSlotX dateSlotWidth stride len : Nat) (st : AppState) : AppState × List Rect :=
  if dateChanged ∧ dateSlotX < st.width then
    let buf := clearRowsGuarded st.pixels stride dateSlotX (dateSlotWidth * 4) len st.height
    let contentW := dateContentWidth g bus.day bus.month bus.year
    let startX := dateSlotX + (dateSlotWidth - contentW) / 2
    let buf := (drawSeq buf stride startX colorDate g
      (dateCalls bus.day bus.month bus.year)).1
    let dmgW := min dateSlotWidth (st.width - dateSlotX)
    ({ st with
        pixels := buf, lastDay := bus.day, lastMonth := bus.month,
        lastYear := bus.year },
     if 0 < dmgW then [(dateSlotX, 0, dmgW, st.height)] else [])
  else (st, [])

/-- The clock block of `draw_bar` (src/app_state.rs lines 418-461). -/
def timeBlock (g : GlyphCache) (bus : StateBus) (clockChanged : Bool)
    (timeSlotX timeSlotWidth stride len : Nat) (st : AppState) : AppState × List Rect :=
  if clockChanged ∧ timeSlotX < st.width then
    let buf := clearRowsGuarded st.pixels stride timeSlotX (timeSlotWidth * 4) len st.height
    let contentW := timeContentWidth g bus.h bus.m
    let startX := timeSlotX + (timeSlotWidth - contentW) / 2
    let buf := (drawSeq buf stride startX colorTime g (timeCalls bus.h bus.m)).1
    let dmgW := min timeSlotWidth (st.width - timeSlotX)
    ({ st with pixels := buf, lastH := bus.h, lastM := bus.m },
     if 0 < dmgW then [(timeSlotX, 0, dmgW, st.height)] else [])
  else (st, [])

/-- The battery block of `draw_bar` (src/app_state.rs lines 463-530): also
guarded by the battery-disabled sentinel 255; content is drawn right-aligned
to a 10px margin. -/
def batBlock (g : GlyphCache) (bus : StateBus) (batChanged : Bool)
    (batSlotX batMaxWidth stride len : Nat) (st : AppState) : AppState × List Rect :=
  if batChanged ∧ batSlotX < st.width ∧ bus.batState ≠ 255 then
    let buf := clearRowsGuarded st.pixels stride batSlotX (batMaxWidth * 4) len st.height
    let contentW := batteryContentWidth g bus.batPercent bus.batState bus.batEstM
    let startX := st.width - (10 + contentW)
    let buf := (drawSeq buf stride startX colorBat g
      (batteryCalls bus.batPercent bus.batState bus.batEstM)).1
    let dmgW := min batMaxWidth (st.width - batSlotX)
    ({ st with
        pixels := buf, lastBatPercent := bus.batPercent,
        lastBatState := bus.batState, lastBatEstM := bus.batEstM },
     if 0 < dmgW then [(batSlotX, 0, dmgW, st.height)] else [])
  else (st, [])

/-- Source `max_digit_width`: the source's `.iter().map(width).max().unwrap_or(0)`
(for `Nat` the fold with initial 0 is the same value). -/
def maxDigitWidthOf (g : GlyphCache) : Nat :=
  (g.numbers.map RasterizedGlyph.width).foldl max 0

/-- Source `date_slot_width` of `draw_bar`. -/
def dateSlotWidthOf (g : GlyphCache) : Nat :=
  maxDigitWidthOf g * 6 + g.slash.width * 2 + 7

/-- Source `time_slot_width` of `draw_bar`. -/
def timeSlotWidthOf (g : GlyphCache) : Nat :=
  maxDigitWidthOf g * 4 + g.colon.width + g.space.width
    + max g.am.width g.pm.width + 5

/-- Source `date_slot_x`: screen center minus half the 24px center gap minus the
date slot width, saturating (`Nat` subtraction). -/
def dateSlotXOf (g : GlyphCache) (width : Nat) : Nat :=
  width / 2 - 24 / 2 - dateSlotWidthOf g

/-- Source `time_slot_x`: screen center plus half the 24px center gap. -/
def timeSlotXOf (width : Nat) : Nat :=
  width / 2 + 24 / 2

/-- Source `bat_slot_x`: the right-aligned 160px battery area, saturating. -/
def batSlotXOf (width : Nat) : Nat :=
  width - 160

/-- The glyph-drawing body of `draw_bar` (the `if let Some(glyphs)` block):
the four slot blocks run in order on the shared buffer, damage is pushed in
the same order, and the full-redraw flag is cleared at the end. -/
def glyphPass (g : GlyphCache) (bus : StateBus) (st : AppState) : AppState × List Rect :=
  let len := st.width * st.height * 4
  let stride := st.width * 4
  let r1 := wsBlock g bus (wsChangedB st bus) stride st
  let r2 := dateBlock g bus (dateChangedB st bus) (dateSlotXOf g st.width)
    (dateSlotWidthOf g) stride len r1.1
  let r3 := timeBlock g bus (clockChangedB st bus) (timeSlotXOf st.width)
    (timeSlotWidthOf g) stride len r2.1
  let r4 := batBlock g bus (batChangedB st bus) (batSlotXOf st.width) 160 stride len r3.1
  ({ r4.1 with forceFullRedraw := false }, r1.2 ++ r2.2 ++ r3.2 ++ r4.2)

/-- Source `AppState::draw_bar` (src/app_state.rs lines 245-536): bail out on a null
or zero-sized buffer, snapshot the bus and compute the per-slot changed
flags, early-return when nothing changed, then run the glyph pass (a missing
glyph cache draws nothing and records nothing). -/
def drawBar (st : AppState) (bus : StateBus) : AppState × List Rect :=
  if st.pixelsNull || st.width == 0 || st.height == 0 then (st, [])
  else if !wsChangedB st bus && !clockChangedB st bus && !dateChangedB st bus
      && !batChangedB st bus then (st, [])
  else
    match st.glyphs with
    | none => (st, [])
    | some g => glyphPass g bus st

/-- Release of the previous buffer resources in the configure handler: the
`wl_buffer` handle is destroyed and, when the mapping is live, it is unmapped
and the pointer nulled (the source does these as two steps; the first touches
no field the unmap guard reads). -/
def releaseBuffers (st : AppState) : AppState :=
  if !st.pixelsNull ∧ 0 < st.pixelsLen then
    { st with buffer := none, pixelsNull := true, pixelsLen := 0 }
  else { st with buffer := none }

/-- Tail of the configure handler: mark the surface configured, force a full
redraw, and run `redraw_and_commit` (which submits `draw_bar`'s damage). -/
def configureCommit (st0 : AppState) (bus : StateBus) : AppState × List Rect :=
  let st := { st0 with configured := true, forceFullRedraw := true }
  if st.configured then drawBar st bus else (st, [])

/-- Resize step of the layer-surface configure handler (src/app_state.rs
lines 625-702), after the width/height defaulting: on a size change the old
buffer handle and mapping are released and a fresh zeroed mapping of
`stride * height` bytes plus a new `wl_buffer` of the same geometry are
created. -/
def configureApply (st : AppState) (bus : StateBus) (w h : Nat) :
    AppState × List Rect :=
  configureCommit
    (if st.width ≠ w ∨ st.height ≠ h then
      { releaseBuffers st with
        width := w, height := h, pixels := fun _ => 0, pixelsNull := false,
        pixelsLen := w * 4 * h, buffer := some ⟨w, h, w * 4⟩ }
     else st) bus

/-- The configure handler proper: `width` 0 defaults to 1920 and `height` 0
to the bar's fixed height 28 before the resize logic runs. -/
def configureEvent (st : AppState) (bus : StateBus) (width height : Nat) :
    AppState × List Rect :=
  configureApply st bus (if width = 0 then 1920 else width)
    (if height = 0 then 28 else height)

/-- A concrete bus snapshot for counterexamples and witnesses. -/
def busCE : StateBus :=
  { activeWs := 1, workspaces := List.replicate 10 false,
    h := 0, m := 0, day := 0, month := 0, year := 0,
    batPercent := 100, batState := 1, batEstM := 0 }

/-! ### Lemmas about event-line parsing -/

theorem stripPre_append (pat rest : List Char) : stripPre pat (pat ++ rest) = some rest := by
  induction pat with
  | nil => rfl
  | cons p ps ih => simp [stripPre, ih]

theorem parseDigitsU8_digits {cs : List Char} {n : Nat} (h : parseDigitsU8 cs = some n) :
    cs ≠ [] ∧ ∀ c ∈ cs, c.isDigit = true := by
  unfold parseDigitsU8 at h
  split at h
  · rename_i hc
    exact ⟨hc.1, by simpa [List.all_eq_true] using hc.2⟩
  · exact absurd h (by simp)

theorem isWs_of_isDigit {c : Char} (h : c.isDigit = true) : isWs c = false := by
  unfold isWs
  by_cases h1 : c = ' '
  · subst h1; exact absurd h (by decide)
  by_cases h2 : c = '\t'
  · subst h2; exact absurd h (by decide)
  by_cases h3 : c = '\n'
  · subst h3; exact absurd h (by decide)
  by_cases h4 : c = '\r'
  · subst h4; exact absurd h (by decide)
  simp [h1, h2, h3, h4]

theorem parseU8_getLast {cs : List Char} {n : Nat} (h : parseU8 cs = some n) :
    ∃ c t, cs.reverse = c :: t ∧ c.isDigit = true := by
  have base : ∀ (l : List Char), parseDigitsU8 l = some n →
      ∃ c t, l.reverse = c :: t ∧ c.isDigit = true := by
    intro l hl
    obtain ⟨hne, hall⟩ := parseDigitsU8_digits hl
    cases hr : l.reverse with
    | nil => exact absurd (by simpa using hr) hne
    | cons c t =>
      refine ⟨c, t, rfl, hall c ?_⟩
      have : c ∈ l.reverse := by rw [hr]; exact List.mem_cons_self c t
      exact List.mem_reverse.mp this
  unfold parseU8 at h
  split at h
  · rename_i rest
    obtain ⟨c, t, hrev, hdig⟩ := base rest h
    exact ⟨c, t ++ ['+'], by simp [hrev], hdig⟩
  · exact base _ h

theorem trimChars_wsLine {ds : List Char} {n : Nat} (h : parseU8 ds = some n) :
    trimChars (wsPre ++ ds) = wsPre ++ ds := by
  obtain ⟨c, t, hrev, hdig⟩ := parseU8_getLast h
  unfold trimChars
  have h1 : (wsPre ++ ds).dropWhile isWs = wsPre ++ ds := by
    rw [show wsPre ++ ds = 'w' :: ("orkspace>>".data ++ ds) from rfl]
    rw [List.dropWhile_cons]
    simp [isWs]
  have h2 : (wsPre ++ ds).reverse = c :: (t ++ wsPre.reverse) := by
    rw [List.reverse_append, hrev]; rfl
  rw [h1, h2, List.dropWhile_cons, isWs_of_isDigit hdig]
  simp only [Bool.false_eq_true, if_false, ← h2, List.reverse_reverse]

/-- C1 counterexample: the line `workspace>>11` carries the number 11, which
is outside [1,10], yet handling it changes the published workspace state (the
active-workspace field becomes 11). -/
theorem c1_counterexample :
    handleEvent "workspace>>11".data ⟨1, List.replicate 10 false⟩ ≠
      ⟨1, List.replicate 10 false⟩ := by
  decide

/-- C1 amended: for a `workspace>><N>` line whose N parses as `u8` but lies
outside [1,10], handling the event leaves every occupied flag unchanged but
stores N into the active-workspace field: the event is not ignored. -/
theorem c1_out_of_range_event (ds : List Char) (n : Nat) (st : WsState)
    (hp : parseU8 ds = some n) (hn : n = 0 ∨ 10 < n) :
    handleEvent (wsPre ++ ds) st = { st with active := n } := by
  have hguard : ¬(0 < n ∧ n ≤ 10) := by omega
  simp only [handleEvent, trimChars_wsLine hp, stripPre_append, hp, hguard, if_false]

theorem c1_out_of_range_event_witness :
    handleEvent (wsPre ++ ['1', '1']) ⟨1, List.replicate 10 false⟩ =
      ⟨11, List.replicate 10 false⟩ :=
  c1_out_of_range_event ['1', '1'] 11 ⟨1, List.replicate 10 false⟩ (by decide)
    (by decide)

/-- C4 counterexample: with percent 7, state discharging (1) and estimate 125
minutes, the battery branch draws two spaces on each side of the minus sign,
so the drawn glyph sequence is not the claimed
digit 7, percent, one space, minus, one space, 0, 2, colon, 0, 5. -/
theorem c4_counterexample :
    (batteryCalls 7 1 125).map Prod.fst ≠
      [.digit 7, .percent, .space, .minus, .space,
       .digit 0, .digit 2, .colon, .digit 0, .digit 5] := by
  decide

/-- C4 amended: with percent 7, state discharging (1) and estimate 125
minutes, the battery slot draws exactly digit 7, percent, two spaces, minus,
two spaces, then the estimate as 02:05 (hours and minutes zero-padded to two
digits). -/
theorem c4_battery_sequence :
    (batteryCalls 7 1 125).map Prod.fst =
      [.digit 7, .percent, .space, .space, .minus, .space, .space,
       .digit 0, .digit 2, .colon, .digit 0, .digit 5] := by
  decide

/-- C8: for battery percent p in [0,100] with state neither full (3) nor
disabled (255), the leading digit-glyph run of the battery draw sequence is
exactly "100" iff p = 100, has exactly two digits iff 10 ≤ p < 100, and
exactly one digit iff p < 10. -/
theorem c8_percent_digit_count (p s e : Nat) (hp : p ≤ 100) (h3 : s ≠ 3)
    (_h255 : s ≠ 255) :
    (((batteryCalls p s e).map Prod.fst).takeWhile isDigitGlyph =
        [.digit 1, .digit 0, .digit 0] ↔ p = 100) ∧
    ((((batteryCalls p s e).map Prod.fst).takeWhile isDigitGlyph).length = 2 ↔
        10 ≤ p ∧ p < 100) ∧
    ((((batteryCalls p s e).map Prod.fst).takeWhile isDigitGlyph).length = 1 ↔
        p < 10) := by
  unfold batteryCalls
  rw [if_neg h3]
  by_cases h100 : p = 100
  · subst h100
    simp [List.takeWhile, isDigitGlyph]
  · by_cases h10 : 10 ≤ p
    · simp only [h100, if_false, h10, if_true, List.cons_append, List.nil_append,
        List.map_cons, List.takeWhile, isDigitGlyph]
      constructor
      · constructor
        · intro hlist
          simp at hlist
        · intro hc; exact hc.elim
      · simp
        omega
    · simp only [h100, if_false, h10, List.cons_append, List.nil_append,
        List.map_cons, List.takeWhile, isDigitGlyph]
      constructor
      · constructor
        · intro hlist
          simp at hlist
        · intro hc; exact hc.elim
      · simp
        omega

theorem c8_percent_digit_count_witness :
    ((((batteryCalls 55 1 300).map Prod.fst).takeWhile isDigitGlyph).length = 2 ↔
        10 ≤ 55 ∧ 55 < 100) :=
  (c8_percent_digit_count 55 1 300 (by decide) (by decide) (by decide)).2.1

/-- C9 counterexample: discharging with charge 4194304 and rate 1 gives an
exact remaining time of 60 × 4194304 minutes, but the code truncates the
`f64` result to `u16` with saturation, producing 65535. -/
theorem c9_counterexample : computeEstimate 1 4194304 1 0 ≠ 60 * (4194304 / 1) := by
  decide

/-- C9 amended: the estimate equals min(65535, 60·charge_remaining/rate)
when discharging (floor division; the f64 value is truncated to `u16` with
saturation) and min(65535, 60·(charge_full − charge_remaining)/rate) when
charging; the computation never divides by zero and never underflows: a zero
rate, a non-charging non-discharging state, or charging with
charge_full ≤ charge_remaining yields 0 instead. -/
theorem c9_estimate (c r f : Nat) :
    (computeEstimate 1 c r f = if 0 < r then min (60 * c / r) 65535 else 0) ∧
    (computeEstimate 2 c r f =
      if 0 < r ∧ c < f then min (60 * (f - c) / r) 65535 else 0) ∧
    computeEstimate 0 c r f = 0 ∧ computeEstimate 3 c r f = 0 := by
  unfold computeEstimate
  refine ⟨by simp, ?_, by simp, by simp⟩
  split_ifs <;> simp_all

/-! ### Serialization lemmas -/

theorem leBytes_length (k : Nat) : ∀ v, (leBytes k v).length = k := by
  induction k with
  | zero => intro v; rfl
  | succ k ih => intro v; simp [leBytes, ih]

theorem decodeLE_leBytes (k : Nat) : ∀ v, v < 256 ^ k → decodeLE (leBytes k v) = v := by
  induction k with
  | zero =>
    intro v hv
    interval_cases v
    rfl
  | succ k ih =>
    intro v hv
    have hdiv : v / 256 < 256 ^ k := by
      rw [Nat.div_lt_iff_lt_mul (by norm_num)]
      calc v < 256 ^ (k + 1) := hv
        _ = 256 ^ k * 256 := by ring
    show v % 256 + 256 * decodeLE (leBytes k (v / 256)) = v
    rw [ih _ hdiv, Nat.mod_add_div]

theorem readBytes_len_append {n : Nat} {xs : List Nat} (hx : xs.length = n)
    (rest : List Nat) : readBytes n (xs ++ rest) = some (xs, rest) := by
  subst hx
  unfold readBytes
  rw [if_pos (by simp)]
  simp

theorem readU16_append {v : Nat} (h : v < 65536) (rest : List Nat) :
    readU16 (writeU16 v ++ rest) = some (v, rest) := by
  unfold readU16 writeU16
  rw [readBytes_len_append (leBytes_length 2 v) rest]
  simp [decodeLE_leBytes 2 v (by norm_num; omega)]

theorem readU32_append {v : Nat} (h : v < 4294967296) (rest : List Nat) :
    readU32 (writeU32 v ++ rest) = some (v, rest) := by
  unfold readU32 writeU32
  rw [readBytes_len_append (leBytes_length 4 v) rest]
  simp [decodeLE_leBytes 4 v (by norm_num; omega)]

theorem readU64_append {v : Nat} (h : v < 18446744073709551616) (rest : List Nat) :
    readU64 (writeU64 v ++ rest) = some (v, rest) := by
  unfold readU64 writeU64
  rw [readBytes_len_append (leBytes_length 8 v) rest]
  simp [decodeLE_leBytes 8 v (by norm_num; omega)]

theorem readGlyph_append {gl : RasterizedGlyph} (h : glyphFits gl) (rest : List Nat) :
    readGlyph (glyphBytes gl ++ rest) = some (gl, rest) := by
  obtain ⟨hw, hh, hc⟩ := h
  unfold readGlyph glyphBytes
  rw [List.append_assoc, List.append_assoc, List.append_assoc, readU16_append hw]
  simp only [Option.some_bind]
  rw [readU16_append hh]
  simp only [Option.some_bind]
  rw [readU32_append hc]
  simp only [Option.some_bind]
  rw [readBytes_len_append rfl rest]
  rfl

theorem readGlyphs_append (gls : List RasterizedGlyph) (rest : List Nat)
    (h : ∀ gl ∈ gls, glyphFits gl) :
    readGlyphs gls.length (gls.flatMap glyphBytes ++ rest) = some (gls, rest) := by
  induction gls with
  | nil => rfl
  | cons g gls ih =>
    have hg : glyphFits g := h g (List.mem_cons_self g gls)
    have hrest : ∀ gl ∈ gls, glyphFits gl := fun gl hm => h gl (List.mem_cons_of_mem g hm)
    show readGlyphs (gls.length + 1) ((g :: gls).flatMap glyphBytes ++ rest) = _
    rw [List.flatMap_cons, List.append_assoc]
    unfold readGlyphs
    rw [readGlyph_append hg]
    simp only [Option.some_bind]
    rw [ih hrest]
    rfl

theorem fromVec_asSliceOrdered (g : GlyphCache) (hn : g.numbers.length = 10) :
    GlyphCache.fromVec g.asSliceOrdered = .ok g := by
  rcases g with ⟨ns, gam, gpm, gsl, gco, gsp, gpc, gpl, gmi, gfu⟩
  simp only at hn
  rcases ns with _ | ⟨a0, _ | ⟨a1, _ | ⟨a2, _ | ⟨a3, _ | ⟨a4, _ | ⟨a5, _ | ⟨a6,
    _ | ⟨a7, _ | ⟨a8, _ | ⟨a9, _ | ⟨a10, t⟩⟩⟩⟩⟩⟩⟩⟩⟩⟩⟩ <;>
    simp_all [GlyphCache.asSliceOrdered, GlyphCache.fromVec]

/-- Evaluation of a load attempt against a stream produced by `write_atlas`:
the reads all succeed and the result is decided by the three validation
checks (font path, modification time, size bit pattern), in that order. -/
theorem loadFromAtlas_writeAtlas (g : GlyphCache) (path expPath : List Nat)
    (mt curMt : Nat × Nat) (sz expSz : Nat)
    (hp : path.length < 4294967296) (hm1 : mt.1 < 18446744073709551616)
    (hm2 : mt.2 < 4294967296) (hsz : sz < 4294967296) :
    loadFromAtlas expPath expSz curMt (writeAtlas g path mt sz) =
      if path ≠ expPath then .error "atlas font path mismatch"
      else if curMt ≠ mt then .error "atlas font timestamp mismatch"
      else if sz ≠ expSz then .error "atlas font size mismatch"
      else ioRead (readGlyphs 19 (g.asSliceOrdered.flatMap glyphBytes))
        fun glyphs _ => GlyphCache.fromVec glyphs := by
  unfold loadFromAtlas writeAtlas
  simp only [List.append_assoc]
  rw [readBytes_len_append (show atlasMagic.length = 5 from rfl)]
  simp only [ioRead]
  rw [if_neg (show ¬atlasMagic ≠ atlasMagic from fun hne => hne rfl)]
  rw [readU32_append hp]
  simp only [ioRead]
  rw [readBytes_len_append rfl]
  simp only [ioRead]
  rw [readU64_append hm1]
  simp only [ioRead]
  rw [readU32_append hm2]
  simp only [ioRead]
  rw [readU32_append hsz]

/-- C5: loading back the byte stream written by `write_atlas` for a glyph
cache (under the same font path, unchanged modification time and the same
size) returns the cache itself: all 19 glyphs' widths, heights and coverage
bytes are bit-identical to the directly rasterized ones that were written. -/
theorem c5_atlas_roundtrip (g : GlyphCache) (path : List Nat) (mt : Nat × Nat)
    (sz : Nat) (hn : g.numbers.length = 10)
    (hg : ∀ gl ∈ g.asSliceOrdered, glyphFits gl)
    (hp : path.length < 4294967296) (hm1 : mt.1 < 18446744073709551616)
    (hm2 : mt.2 < 4294967296) (hsz : sz < 4294967296) :
    loadFromAtlas path sz mt (writeAtlas g path mt sz) = .ok g := by
  rw [loadFromAtlas_writeAtlas g path path mt mt sz sz hp hm1 hm2 hsz]
  simp only [ne_eq, not_true_eq_false, ite_false, if_false]
  have hlen : g.asSliceOrdered.length = 19 := by
    simp [GlyphCache.asSliceOrdered, hn]
  rw [show g.asSliceOrdered.flatMap glyphBytes =
      g.asSliceOrdered.flatMap glyphBytes ++ [] from (List.append_nil _).symm,
    show (19 : Nat) = g.asSliceOrdered.length from hlen.symm,
    readGlyphs_append g.asSliceOrdered [] hg]
  simp only [ioRead]
  exact fromVec_asSliceOrdered g hn

theorem c5_atlas_roundtrip_witness :
    loadFromAtlas [97] 1098907648 (5, 6) (writeAtlas witnessCache [97] (5, 6) 1098907648) =
      .ok witnessCache :=
  c5_atlas_roundtrip witnessCache [97] (5, 6) 1098907648 (by decide) (by decide)
    (by decide) (by decide) (by decide) (by decide)

/-- C7: a load attempt against a written atlas fails validation (and so the
`load_or_build` caller falls through to a rebuild) whenever the stored
modification time differs from the font file's current modification time, or
the stored size bit pattern differs from the requested one, or the stored
font path differs from the requested font path — the path mismatch is
rejected even though every other byte of the atlas matches. -/
theorem c7_validation_mismatch (g : GlyphCache) (path expPath : List Nat)
    (mt curMt : Nat × Nat) (sz expSz : Nat)
    (hp : path.length < 4294967296) (hm1 : mt.1 < 18446744073709551616)
    (hm2 : mt.2 < 4294967296) (hsz : sz < 4294967296)
    (hmis : path ≠ expPath ∨ mt ≠ curMt ∨ sz ≠ expSz) :
    loadFailed (loadFromAtlas expPath expSz curMt (writeAtlas g path mt sz)) = true := by
  rw [loadFromAtlas_writeAtlas g path expPath mt curMt sz expSz hp hm1 hm2 hsz]
  by_cases h1 : path = expPath
  · by_cases h2 : curMt = mt
    · have h3 : sz ≠ expSz := by
        rcases hmis with h | h | h
        · exact absurd h1 h
        · exact absurd h2.symm h
        · exact h
      simp [h1, h2, h3, loadFailed]
    · simp [h1, h2, loadFailed]
  · simp [h1, loadFailed]

theorem c7_validation_mismatch_witness :
    loadFailed (loadFromAtlas [98] 0 (0, 0) (writeAtlas witnessCache [97] (0, 0) 0)) = true :=
  c7_validation_mismatch witnessCache [97] [98] (0, 0) (0, 0) 0 0 (by decide)
    (by decide) (by decide) (by decide) (by decide)

/-! ### Lemmas about the string-glyph compositor -/

theorem getD_set_ne (l : List Nat) {i j : Nat} (v : Nat) (h : i ≠ j) :
    (l.set i v).getD j 0 = l.getD j 0 := by
  rw [List.getD_eq_getElem?_getD, List.getD_eq_getElem?_getD, List.getElem?_set_ne h]

theorem getD_set_eq (l : List Nat) {i : Nat} (v : Nat) (h : i < l.length) :
    (l.set i v).getD i 0 = v := by
  rw [List.getD_eq_getElem?_getD, List.getElem?_set_eq_of_lt v h]
  rfl

theorem setRow_length (src : List Nat) :
    ∀ (n : Nat) (dst : List Nat) (db sb : Nat),
      (setRow dst src db sb n).length = dst.length := by
  intro n
  induction n with
  | zero => intros; rfl
  | succ n ih =>
    intro dst db sb
    show (setRow (dst.set db (src.getD sb 0)) src (db + 1) (sb + 1) n).length = _
    rw [ih, List.length_set]

theorem setRow_getD_out (src : List Nat) :
    ∀ (n : Nat) (dst : List Nat) (db sb i : Nat), i < db ∨ db + n ≤ i →
      (setRow dst src db sb n).getD i 0 = dst.getD i 0 := by
  intro n
  induction n with
  | zero => intros; rfl
  | succ n ih =>
    intro dst db sb i hi
    show (setRow (dst.set db (src.getD sb 0)) src (db + 1) (sb + 1) n).getD i 0 = _
    rw [ih _ _ _ _ (by omega), getD_set_ne _ _ (by omega)]

theorem setRow_getD_in (src : List Nat) :
    ∀ (n : Nat) (dst : List Nat) (db sb i : Nat), db ≤ i → i < db + n →
      i < dst.length →
      (setRow dst src db sb n).getD i 0 = src.getD (sb + (i - db)) 0 := by
  intro n
  induction n with
  | zero => omega
  | succ n ih =>
    intro dst db sb i h1 h2 hlen
    show (setRow (dst.set db (src.getD sb 0)) src (db + 1) (sb + 1) n).getD i 0 = _
    by_cases hi : i = db
    · subst hi
      rw [setRow_getD_out src n _ _ _ _ (by omega), getD_set_eq _ _ hlen]
      congr 1
      omega
    · rw [ih _ _ _ _ (by omega) (by omega) (by simpa using hlen)]
      congr 1
      omega

theorem copyGlyphRows_length (src : List Nat) (tw cx w : Nat) :
    ∀ (rows : Nat) (dst : List Nat),
      (copyGlyphRows dst src tw cx w rows).length = dst.length := by
  intro rows
  induction rows with
  | zero => intros; rfl
  | succ rows ih =>
    intro dst
    show (setRow (copyGlyphRows dst src tw cx w rows) src (rows * tw + cx)
      (rows * w) w).length = _
    rw [setRow_length, ih]

theorem copyGlyphRows_getD (src dst : List Nat) (tw cx w : Nat)
    (hcw : cx + w ≤ tw) :
    ∀ (rows y x : Nat), y < rows → x < w → y * tw + cx + x < dst.length →
      (copyGlyphRows dst src tw cx w rows).getD (y * tw + cx + x) 0 =
        src.getD (y * w + x) 0 := by
  intro rows
  induction rows with
  | zero => omega
  | succ rows ih =>
    intro y x hy hx hlen
    show (setRow (copyGlyphRows dst src tw cx w rows) src (rows * tw + cx)
      (rows * w) w).getD (y * tw + cx + x) 0 = _
    by_cases hyr : y = rows
    · subst hyr
      rw [setRow_getD_in src w _ _ _ _ (by omega) (by omega)
        (by rw [copyGlyphRows_length]; omega)]
      congr 1
      omega
    · have hlt : (y + 1) * tw ≤ rows * tw := Nat.mul_le_mul_right tw (by omega)
      have hidx : y * tw + cx + x < rows * tw + cx := by
        have : y * tw + cx + x < (y + 1) * tw := by
          have : y * tw + (cx + x) < y * tw + tw := by omega
          calc y * tw + cx + x = y * tw + (cx + x) := by omega
            _ < y * tw + tw := this
            _ = (y + 1) * tw := by ring
        omega
      rw [setRow_getD_out src w _ _ _ _ (Or.inl hidx)]
      exact ih y x (by omega) hx hlen

theorem copyGlyphRows_getD_keep (src dst : List Nat) (tw cx w : Nat)
    (hcw : cx + w ≤ tw) :
    ∀ (rows y c : Nat), c < tw → (c < cx ∨ cx + w ≤ c) →
      (copyGlyphRows dst src tw cx w rows).getD (y * tw + c) 0 =
        dst.getD (y * tw + c) 0 := by
  intro rows
  induction rows with
  | zero => intros; rfl
  | succ rows ih =>
    intro y c hc hcol
    show (setRow (copyGlyphRows dst src tw cx w rows) src (rows * tw + cx)
      (rows * w) w).getD (y * tw + c) 0 = _
    have hout : y * tw + c < rows * tw + cx ∨ rows * tw + cx + w ≤ y * tw + c := by
      rcases Nat.lt_trichotomy y rows with h | h | h
      · left
        have : (y + 1) * tw ≤ rows * tw := Nat.mul_le_mul_right tw (by omega)
        have : y * tw + c < (y + 1) * tw := by
          have := hc
          calc y * tw + c < y * tw + tw := by omega
            _ = (y + 1) * tw := by ring
        omega
      · subst h
        omega
      · right
        have : (rows + 1) * tw ≤ y * tw := Nat.mul_le_mul_right tw (by omega)
        have heq : (rows + 1) * tw = rows * tw + tw := by ring
        omega
    rw [setRow_getD_out src w _ _ _ _ hout]
    exact ih y c hc hcol

theorem compositeGlyphs_length (tw : Nat) :
    ∀ (gs : List (Metrics × List Nat)) (cx : Nat) (dst : List Nat),
      (compositeGlyphs tw gs cx dst).length = dst.length := by
  intro gs
  induction gs with
  | nil => intros; rfl
  | cons g gs ih =>
    intro cx dst
    show (compositeGlyphs tw gs (cx + g.1.width)
      (copyGlyphRows dst g.2 tw cx g.1.width g.1.height)).length = _
    rw [ih, copyGlyphRows_length]

theorem compositeGlyphs_keep (tw : Nat) :
    ∀ (gs : List (Metrics × List Nat)) (cx : Nat) (dst : List Nat) (y c : Nat),
      c < cx → cx + sumWidths gs ≤ tw →
      (compositeGlyphs tw gs cx dst).getD (y * tw + c) 0 =
        dst.getD (y * tw + c) 0 := by
  intro gs
  induction gs with
  | nil => intros; rfl
  | cons g gs ih =>
    intro cx dst y c hc htw
    have hsum : sumWidths (g :: gs) = g.1.width + sumWidths gs := by
      simp [sumWidths]
    show (compositeGlyphs tw gs (cx + g.1.width)
      (copyGlyphRows dst g.2 tw cx g.1.width g.1.height)).getD (y * tw + c) 0 = _
    rw [ih (cx + g.1.width) _ y c (by omega) (by omega)]
    exact copyGlyphRows_getD_keep g.2 dst tw cx g.1.width (by omega) g.1.height y c
      (by omega) (Or.inl hc)

theorem sumWidths_cons (g : Metrics × List Nat) (gs : List (Metrics × List Nat)) :
    sumWidths (g :: gs) = g.1.width + sumWidths gs := by
  simp [sumWidths]

theorem inkOffset_zero (gs : List (Metrics × List Nat)) : inkOffset gs 0 = 0 := by
  simp [inkOffset, sumWidths]

theorem inkOffset_cons_succ (g : Metrics × List Nat)
    (gs : List (Metrics × List Nat)) (j : Nat) :
    inkOffset (g :: gs) (j + 1) = g.1.width + inkOffset gs j := by
  simp [inkOffset, List.take_succ_cons, sumWidths]

theorem inkOffset_add_width_le (gs : List (Metrics × List Nat)) :
    ∀ (i : Nat) (hi : i < gs.length), inkOffset gs i + gs[i].1.width ≤ sumWidths gs := by
  induction gs with
  | nil => intro i hi; exact absurd hi (by simp)
  | cons g gs ih =>
    intro i hi
    cases i with
    | zero => simp [inkOffset_zero, sumWidths_cons]
    | succ j =>
      have := ih j (by simpa using hi)
      rw [inkOffset_cons_succ, sumWidths_cons]
      simpa [Nat.add_assoc] using Nat.add_le_add_left this g.1.width

theorem foldl_max_init_le (l : List Nat) : ∀ b, b ≤ l.foldl max b := by
  induction l with
  | nil => intro b; exact le_refl b
  | cons c t ih =>
    intro b
    calc b ≤ max b c := le_max_left b c
      _ ≤ t.foldl max (max b c) := ih (max b c)

theorem le_foldl_max (l : List Nat) : ∀ (b a : Nat), a ∈ l → a ≤ l.foldl max b := by
  induction l with
  | nil => intro _ _ h; exact absurd h (List.not_mem_nil _)
  | cons c t ih =>
    intro b a ha
    rcases List.mem_cons.mp ha with h | h
    · subst h
      calc a ≤ max b a := le_max_right b a
        _ ≤ t.foldl max (max b a) := foldl_max_init_le t (max b a)
    · exact ih (max b c) a h

theorem compositeGlyphs_getD_pixel (tw : Nat) :
    ∀ (gs : List (Metrics × List Nat)) (cx : Nat) (dst : List Nat) (i : Nat)
      (hi : i < gs.length) (y x : Nat),
      y < gs[i].1.height → x < gs[i].1.width →
      cx + sumWidths gs ≤ tw →
      y * tw + (cx + inkOffset gs i + x) < dst.length →
      (compositeGlyphs tw gs cx dst).getD (y * tw + (cx + inkOffset gs i + x)) 0 =
        gs[i].2.getD (y * gs[i].1.width + x) 0 := by
  intro gs
  induction gs with
  | nil => intro cx dst i hi; exact absurd hi (by simp)
  | cons g gs ih =>
    intro cx dst i hi y x hy hx htw hlen
    show (compositeGlyphs tw gs (cx + g.1.width)
      (copyGlyphRows dst g.2 tw cx g.1.width g.1.height)).getD _ 0 = _
    cases i with
    | zero =>
      simp only [List.getElem_cons_zero] at hy hx ⊢
      rw [inkOffset_zero] at hlen ⊢
      have harr : y * tw + (cx + 0 + x) = y * tw + (cx + x) := by omega
      rw [harr]
      rw [compositeGlyphs_keep tw gs (cx + g.1.width) _ y (cx + x) (by omega)
        (by rw [sumWidths_cons] at htw; omega)]
      have harr2 : y * tw + (cx + x) = y * tw + cx + x := by omega
      rw [harr2]
      exact copyGlyphRows_getD g.2 dst tw cx g.1.width
        (by rw [sumWidths_cons] at htw; omega) g.1.height y x hy hx
        (by omega)
    | succ j =>
      simp only [List.getElem_cons_succ] at hy hx ⊢
      rw [inkOffset_cons_succ] at hlen ⊢
      have harr : y * tw + (cx + (g.1.width + inkOffset gs j) + x) =
          y * tw + ((cx + g.1.width) + inkOffset gs j + x) := by omega
      rw [harr]
      exact ih (cx + g.1.width) _ j (by simpa using hi) y x hy hx
        (by rw [sumWidths_cons] at htw; omega)
        (by rw [copyGlyphRows_length]; omega)

/-- C3 counterexample: for a font whose horizontal advances exceed its ink
widths, the composed "AM" glyph the source builds (width = sum of ink widths,
direct copy) differs from the composition the specification describes
(bounding box from pen positions, advances and bearings, per-pixel
maximum). -/
theorem c3_counterexample :
    rasterizeString fontCE "AM".data ≠ rasterizeStringSpec fontCE "AM".data := by
  decide

/-- C3 amended: for every fixed label string, the composed glyph is built by
rasterizing each character and summing the ink widths (ignoring advances and
bearings) for the total width, taking the maximum ink height as the height,
allocating one zero-filled coverage buffer of that size, and copying each
character's rows top-aligned at the horizontal offset given by the sum of the
preceding ink widths; the characters' spans are disjoint, so each composed
pixel inside a character's box equals that character's coverage byte (no
per-pixel maximum is involved). -/
theorem c3_composition (font : FontAt) (s : List Char) :
    (rasterizeString font s).width = sumWidths (s.map font) ∧
    (rasterizeString font s).height =
      ((s.map font).map fun g => g.1.height).foldl max 0 ∧
    (rasterizeString font s).coverage.length =
      (rasterizeString font s).width * (rasterizeString font s).height ∧
    ∀ (i : Nat) (hi : i < (s.map font).length) (y x : Nat),
      y < (s.map font)[i].1.height → x < (s.map font)[i].1.width →
      (rasterizeString font s).coverage.getD
          (y * sumWidths (s.map font) + (inkOffset (s.map font) i + x)) 0 =
        (s.map font)[i].2.getD (y * (s.map font)[i].1.width + x) 0 := by
  refine ⟨rfl, rfl, ?_, ?_⟩
  · show (compositeGlyphs _ _ 0 (List.replicate _ 0)).length = _
    rw [compositeGlyphs_length, List.length_replicate]
    rfl
  · intro i hi y x hy hx
    have hoff : inkOffset (s.map font) i + (s.map font)[i].1.width ≤
        sumWidths (s.map font) := inkOffset_add_width_le (s.map font) i hi
    have hcol : inkOffset (s.map font) i + x < sumWidths (s.map font) := by omega
    have hml : (s.map font)[i].1.height ≤
        ((s.map font).map fun g => g.1.height).foldl max 0 := by
      apply le_foldl_max
      exact List.mem_map_of_mem (fun g => g.1.height) (List.getElem_mem hi)
    have hidx : y * sumWidths (s.map font) + (0 + inkOffset (s.map font) i + x) <
        sumWidths (s.map font) * (((s.map font).map fun g => g.1.height).foldl max 0) := by
      have h2 : (y + 1) * sumWidths (s.map font) ≤
          (((s.map font).map fun g => g.1.height).foldl max 0) * sumWidths (s.map font) :=
        Nat.mul_le_mul_right _ (by omega)
      have h1 : (y + 1) * sumWidths (s.map font) =
          y * sumWidths (s.map font) + sumWidths (s.map font) := by ring
      have h3 : (((s.map font).map fun g => g.1.height).foldl max 0) *
            sumWidths (s.map font) =
          sumWidths (s.map font) * (((s.map font).map fun g => g.1.height).foldl max 0) :=
        Nat.mul_comm _ _
      omega
    have harr : y * sumWidths (s.map font) + (inkOffset (s.map font) i + x) =
        y * sumWidths (s.map font) + (0 + inkOffset (s.map font) i + x) := by
      omega
    rw [harr]
    show (compositeGlyphs (sumWidths (s.map font)) (s.map font) 0
      (List.replicate (sumWidths (s.map font) *
        (((s.map font).map fun g => g.1.height).foldl max 0)) 0)).getD _ 0 = _
    rw [compositeGlyphs_getD_pixel (sumWidths (s.map font)) (s.map font) 0 _ i hi y x
      hy hx (by omega) (by rw [List.length_replicate]; exact hidx)]

theorem c3_composition_witness :
    (rasterizeString fontCE "AM".data).coverage.getD
        (0 * sumWidths ("AM".data.map fontCE) +
          (inkOffset ("AM".data.map fontCE) 1 + 0)) 0 =
      ("AM".data.map fontCE)[1].2.getD
        (0 * ("AM".data.map fontCE)[1].1.width + 0) 0 :=
  (c3_composition fontCE "AM".data).2.2.2 1 (by decide) 0 0 (by decide) (by decide)

/-! ### Lemmas about draw_glyph -/

theorem setByte_ne (b : Buf) (i v j : Nat) (h : j ≠ i) : setByte b i v j = b j := by
  simp [setByte, h]

/-- The position constraints satisfied by every byte `draw_glyph` modifies:
the glyph pixel `(gx, gy)` it belongs to is inside the glyph, survives the
vertical clip at the constant 28 and the horizontal clip at `stride / 4`, has
nonzero coverage, and `i` is one of that pixel's four bytes. -/
def glyphWriteAt (stride startX startY : Nat) (glyph : RasterizedGlyph)
    (gy gx i : Nat) : Prop :=
  startY + gy < 28 ∧ startX + gx < stride / 4 ∧
  glyph.coverage.getD (gy * glyph.width + gx) 0 ≠ 0 ∧
  (startY + gy) * stride + (startX + gx) * 4 ≤ i ∧
  i ≤ (startY + gy) * stride + (startX + gx) * 4 + 3

theorem drawGlyphPixel_changed {pixels : Buf} {stride startX startY : Nat}
    {color : Color} {glyph : RasterizedGlyph} {gy gx i : Nat}
    (h : drawGlyphPixel pixels stride startX startY color glyph gy gx i ≠ pixels i) :
    glyphWriteAt stride startX startY glyph gy gx i := by
  unfold drawGlyphPixel at h
  simp only [] at h
  split at h
  · exact absurd rfl h
  split at h
  · exact absurd rfl h
  split at h
  · exact absurd rfl h
  rename_i h1 h2 h3
  have hrange : (startY + gy) * stride + (startX + gx) * 4 ≤ i ∧
      i ≤ (startY + gy) * stride + (startX + gx) * 4 + 3 := by
    by_contra hout
    have hne : i ≠ (startY + gy) * stride + (startX + gx) * 4 ∧
        i ≠ (startY + gy) * stride + (startX + gx) * 4 + 1 ∧
        i ≠ (startY + gy) * stride + (startX + gx) * 4 + 2 ∧
        i ≠ (startY + gy) * stride + (startX + gx) * 4 + 3 := by
      omega
    rw [setByte_ne _ _ _ _ hne.2.2.2, setByte_ne _ _ _ _ hne.2.2.1,
      setByte_ne _ _ _ _ hne.2.1, setByte_ne _ _ _ _ hne.1] at h
    exact absurd rfl h
  exact ⟨by omega, by omega, h3, hrange.1, hrange.2⟩

theorem drawGlyphRow_changed {stride startX startY : Nat} {color : Color}
    {glyph : RasterizedGlyph} {gy : Nat} :
    ∀ (n : Nat) (pixels : Buf) (i : Nat),
      drawGlyphRow stride startX startY color glyph gy pixels n i ≠ pixels i →
      ∃ gx, gx < n ∧ glyphWriteAt stride startX startY glyph gy gx i := by
  intro n
  induction n with
  | zero => intro pixels i h; exact absurd rfl h
  | succ n ih =>
    intro pixels i h
    by_cases hch : drawGlyphPixel
        (drawGlyphRow stride startX startY color glyph gy pixels n)
        stride startX startY color glyph gy n i =
        drawGlyphRow stride startX startY color glyph gy pixels n i
    · have : drawGlyphRow stride startX startY color glyph gy pixels n i ≠ pixels i := by
        intro he
        exact h (by rw [drawGlyphRow, hch, he])
      obtain ⟨gx, hgx, hw⟩ := ih pixels i this
      exact ⟨gx, by omega, hw⟩
    · exact ⟨n, by omega, drawGlyphPixel_changed hch⟩

theorem drawGlyphRows_changed {stride startX startY : Nat} {color : Color}
    {glyph : RasterizedGlyph} :
    ∀ (n : Nat) (pixels : Buf) (i : Nat),
      drawGlyphRows stride startX startY color glyph pixels n i ≠ pixels i →
      ∃ gy, gy < n ∧ ∃ gx, gx < glyph.width ∧
        glyphWriteAt stride startX startY glyph gy gx i := by
  intro n
  induction n with
  | zero => intro pixels i h; exact absurd rfl h
  | succ n ih =>
    intro pixels i h
    by_cases hch : drawGlyphRow stride startX startY color glyph n
        (drawGlyphRows stride startX startY color glyph pixels n) glyph.width i =
        drawGlyphRows stride startX startY color glyph pixels n i
    · have : drawGlyphRows stride startX startY color glyph pixels n i ≠ pixels i := by
        intro he
        exact h (by rw [drawGlyphRows, hch, he])
      obtain ⟨gy, hgy, hrest⟩ := ih pixels i this
      exact ⟨gy, by omega, hrest⟩
    · obtain ⟨gx, hgx, hw⟩ := drawGlyphRow_changed glyph.width _ i hch
      exact ⟨n, by omega, gx, hgx, hw⟩

theorem drawGlyph_changed {pixels : Buf} {stride startX startY : Nat}
    {color : Color} {glyph : RasterizedGlyph} {i : Nat}
    (h : drawGlyph pixels stride startX startY color glyph i ≠ pixels i) :
    ∃ gy, gy < glyph.height ∧ ∃ gx, gx < glyph.width ∧
      glyphWriteAt stride startX startY glyph gy gx i := by
  unfold drawGlyph at h
  split at h
  · exact absurd rfl h
  · exact drawGlyphRows_changed glyph.height pixels i h

/-- C10: every byte `draw_glyph` modifies belongs to a glyph pixel that
survives the horizontal clip at `x ≥ stride / 4` and the vertical clip at the
fixed constant `y ≥ 28` (not the actual buffer height) and has nonzero
coverage, so every write lands below offset `28 * stride` and hence inside a
buffer of `stride * height` bytes whenever `height ≥ 28`; the second conjunct
shows the precondition is necessary: with stride 4 and height 1 (buffer of
4 bytes) a 28-row glyph still writes byte 108. -/
theorem c10_draw_glyph_safety :
    (∀ (pixels : Buf) (stride startX startY : Nat) (color : Color)
        (glyph : RasterizedGlyph) (height i : Nat), 28 ≤ height →
        drawGlyph pixels stride startX startY color glyph i ≠ pixels i →
        i < 28 * stride ∧ i < stride * height ∧
        ∃ gy, gy < glyph.height ∧ ∃ gx, gx < glyph.width ∧
          glyphWriteAt stride startX startY glyph gy gx i) ∧
    (drawGlyph (fun _ => 0) 4 0 0 ⟨255, 255, 255, 255⟩
        ⟨1, 28, List.replicate 28 255⟩ 108 = 255 ∧ 4 * 1 ≤ 108) := by
  constructor
  · intro pixels stride startX startY color glyph height i hh h
    obtain ⟨gy, hgy, gx, hgx, hw⟩ := drawGlyph_changed h
    obtain ⟨hpy, hpx, hcov, hlo, hhi⟩ := hw
    have hpy' : (startY + gy) * stride ≤ 27 * stride :=
      Nat.mul_le_mul_right _ (by omega)
    have hb : i < 28 * stride := by omega
    have hsh : 28 * stride ≤ height * stride := Nat.mul_le_mul_right _ hh
    have hcomm : height * stride = stride * height := Nat.mul_comm _ _
    exact ⟨hb, by omega, gy, hgy, gx, hgx, hpy, hpx, hcov, hlo, hhi⟩
  · exact ⟨by decide, by omega⟩

theorem c10_draw_glyph_safety_witness :
    0 < 28 * 4 ∧ 0 < 4 * 28 ∧
    ∃ gy, gy < (⟨1, 1, [255]⟩ : RasterizedGlyph).height ∧
      ∃ gx, gx < (⟨1, 1, [255]⟩ : RasterizedGlyph).width ∧
        glyphWriteAt 4 0 0 ⟨1, 1, [255]⟩ gy gx 0 :=
  c10_draw_glyph_safety.1 (fun _ => 0) 4 0 0 ⟨255, 255, 255, 255⟩
    ⟨1, 1, [255]⟩ 28 0 (by omega) (by decide)

/-! ### Slot-block characterizations -/

theorem wsBlock_spec (g : GlyphCache) (bus : StateBus) (c : Bool) (stride : Nat)
    (st : AppState) :
    ∃ buf, wsBlock g bus c stride st =
      ({ st with
          pixels := buf,
          lastActiveWs := if c then bus.activeWs else st.lastActiveWs,
          lastWorkspaces := if c then bus.workspaces else st.lastWorkspaces },
       if c then [(0, 0, min 600 st.width, st.height)] else []) := by
  cases c
  · exact ⟨st.pixels, rfl⟩
  · exact ⟨_, rfl⟩

theorem dateBlock_spec (g : GlyphCache) (bus : StateBus) (c : Bool)
    (dx dw stride len : Nat) (st : AppState) :
    ∃ buf, dateBlock g bus c dx dw stride len st =
      ({ st with
          pixels := buf,
          lastDay := if c ∧ dx < st.width then bus.day else st.lastDay,
          lastMonth := if c ∧ dx < st.width then bus.month else st.lastMonth,
          lastYear := if c ∧ dx < st.width then bus.year else st.lastYear },
       if c ∧ dx < st.width then
         (if 0 < min dw (st.width - dx) then [(dx, 0, min dw (st.width - dx), st.height)]
          else [])
       else []) := by
  by_cases h : c ∧ dx < st.width
  · refine ⟨(drawSeq (clearRowsGuarded st.pixels stride dx (dw * 4) len st.height)
      stride (dx + (dw - dateContentWidth g bus.day bus.month bus.year) / 2)
      colorDate g (dateCalls bus.day bus.month bus.year)).1, ?_⟩
    rw [dateBlock, if_pos h, if_pos h, if_pos h, if_pos h, if_pos h]
  · refine ⟨st.pixels, ?_⟩
    rw [dateBlock, if_neg h, if_neg h, if_neg h, if_neg h, if_neg h]

theorem timeBlock_spec (g : GlyphCache) (bus : StateBus) (c : Bool)
    (tx tw stride len : Nat) (st : AppState) :
    ∃ buf, timeBlock g bus c tx tw stride len st =
      ({ st with
          pixels := buf,
          lastH := if c ∧ tx < st.width then bus.h else st.lastH,
          lastM := if c ∧ tx < st.width then bus.m else st.lastM },
       if c ∧ tx < st.width then
         (if 0 < min tw (st.width - tx) then [(tx, 0, min tw (st.width - tx), st.height)]
          else [])
       else []) := by
  by_cases h : c ∧ tx < st.width
  · refine ⟨(drawSeq (clearRowsGuarded st.pixels stride tx (tw * 4) len st.height)
      stride (tx + (tw - timeContentWidth g bus.h bus.m) / 2)
      colorTime g (timeCalls bus.h bus.m)).1, ?_⟩
    rw [timeBlock, if_pos h, if_pos h, if_pos h, if_pos h]
  · refine ⟨st.pixels, ?_⟩
    rw [timeBlock, if_neg h, if_neg h, if_neg h, if_neg h]

theorem batBlock_spec (g : GlyphCache) (bus : StateBus) (c : Bool)
    (bx bw stride len : Nat) (st : AppState) :
    ∃ buf, batBlock g bus c bx bw stride len st =
      ({ st with
          pixels := buf,
          lastBatPercent := if c ∧ bx < st.width ∧ bus.batState ≠ 255 then
            bus.batPercent else st.lastBatPercent,
          lastBatState := if c ∧ bx < st.width ∧ bus.batState ≠ 255 then
            bus.batState else st.lastBatState,
          lastBatEstM := if c ∧ bx < st.width ∧ bus.batState ≠ 255 then
            bus.batEstM else st.lastBatEstM },
       if c ∧ bx < st.width ∧ bus.batState ≠ 255 then
         (if 0 < min bw (st.width - bx) then [(bx, 0, min bw (st.width - bx), st.height)]
          else [])
       else []) := by
  by_cases h : c ∧ bx < st.width ∧ bus.batState ≠ 255
  · refine ⟨(drawSeq (clearRowsGuarded st.pixels stride bx (bw * 4) len st.height)
      stride (st.width - (10 + batteryContentWidth g bus.batPercent bus.batState bus.batEstM))
      colorBat g (batteryCalls bus.batPercent bus.batState bus.batEstM)).1, ?_⟩
    rw [batBlock, if_pos h, if_pos h, if_pos h, if_pos h, if_pos h]
  · refine ⟨st.pixels, ?_⟩
    rw [batBlock, if_neg h, if_neg h, if_neg h, if_neg h, if_neg h]

/-! ### Per-field block projections (generated mechanically per field) -/

theorem wsBlock_pixelsNull (g : GlyphCache) (bus : StateBus) (c : Bool) (stride : Nat) (st : AppState) :
    (wsBlock g bus c stride st).1.pixelsNull = (st.pixelsNull) := by cases c <;> rfl

theorem wsBlock_width (g : GlyphCache) (bus : StateBus) (c : Bool) (stride : Nat) (st : AppState) :
    (wsBlock g bus c stride st).1.width = (st.width) := by cases c <;> rfl

theorem wsBlock_height (g : GlyphCache) (bus : StateBus) (c : Bool) (stride : Nat) (st : AppState) :
    (wsBlock g bus c stride st).1.height = (st.height) := by cases c <;> rfl

theorem wsBlock_forceFullRedraw (g : GlyphCache) (bus : StateBus) (c : Bool) (stride : Nat) (st : AppState) :
    (wsBlock g bus c stride st).1.forceFullRedraw = (st.forceFullRedraw) := by cases c <;> rfl

theorem wsBlock_glyphs (g : GlyphCache) (bus : StateBus) (c : Bool) (stride : Nat) (st : AppState) :
    (wsBlock g bus c stride st).1.glyphs = (st.glyphs) := by cases c <;> rfl

theorem wsBlock_lastActiveWs (g : GlyphCache) (bus : StateBus) (c : Bool) (stride : Nat) (st : AppState) :
    (wsBlock g bus c stride st).1.lastActiveWs = (if c = true then bus.activeWs else st.lastActiveWs) := by cases c <;> rfl

theorem wsBlock_lastWorkspaces (g : GlyphCache) (bus : StateBus) (c : Bool) (stride : Nat) (st : AppState) :
    (wsBlock g bus c stride st).1.lastWorkspaces = (if c = true then bus.workspaces else st.lastWorkspaces) := by cases c <;> rfl

theorem wsBlock_lastH (g : GlyphCache) (bus : StateBus) (c : Bool) (stride : Nat) (st : AppState) :
    (wsBlock g bus c stride st).1.lastH = (st.lastH) := by cases c <;> rfl

theorem wsBlock_lastM (g : GlyphCache) (bus : StateBus) (c : Bool) (stride : Nat) (st : AppState) :
    (wsBlock g bus c stride st).1.lastM = (st.lastM) := by cases c <;> rfl

theorem wsBlock_lastDay (g : GlyphCache) (bus : StateBus) (c : Bool) (stride : Nat) (st : AppState) :
    (wsBlock g bus c stride st).1.lastDay = (st.lastDay) := by cases c <;> rfl

theorem wsBlock_lastMonth (g : GlyphCache) (bus : StateBus) (c : Bool) (stride : Nat) (st : AppState) :
    (wsBlock g bus c stride st).1.lastMonth = (st.lastMonth) := by cases c <;> rfl

theorem wsBlock_lastYear (g : GlyphCache) (bus : StateBus) (c : Bool) (stride : Nat) (st : AppState) :
    (wsBlock g bus c stride st).1.lastYear = (st.lastYear) := by cases c <;> rfl

theorem wsBlock_lastBatPercent (g : GlyphCache) (bus : StateBus) (c : Bool) (stride : Nat) (st : AppState) :
    (wsBlock g bus c stride st).1.lastBatPercent = (st.lastBatPercent) := by cases c <;> rfl

theorem wsBlock_lastBatState (g : GlyphCache) (bus : StateBus) (c : Bool) (stride : Nat) (st : AppState) :
    (wsBlock g bus c stride st).1.lastBatState = (st.lastBatState) := by cases c <;> rfl

theorem wsBlock_lastBatEstM (g : GlyphCache) (bus : StateBus) (c : Bool) (stride : Nat) (st : AppState) :
    (wsBlock g bus c stride st).1.lastBatEstM = (st.lastBatEstM) := by cases c <;> rfl

theorem dateBlock_pixelsNull (g : GlyphCache) (bus : StateBus) (c : Bool) (dx dw stride len : Nat) (st : AppState) :
    (dateBlock g bus c dx dw stride len st).1.pixelsNull = (st.pixelsNull) := by by_cases h : c ∧ dx < st.width <;> simp [dateBlock, h]

theorem dateBlock_width (g : GlyphCache) (bus : StateBus) (c : Bool) (dx dw stride len : Nat) (st : AppState) :
    (dateBlock g bus c dx dw stride len st).1.width = (st.width) := by by_cases h : c ∧ dx < st.width <;> simp [dateBlock, h]

theorem dateBlock_height (g : GlyphCache) (bus : StateBus) (c : Bool) (dx dw stride len : Nat) (st : AppState) :
    (dateBlock g bus c dx dw stride len st).1.height = (st.height) := by by_cases h : c ∧ dx < st.width <;> simp [dateBlock, h]

theorem dateBlock_forceFullRedraw (g : GlyphCache) (bus : StateBus) (c : Bool) (dx dw stride len : Nat) (st : AppState) :
    (dateBlock g bus c dx dw stride len st).1.forceFullRedraw = (st.forceFullRedraw) := by by_cases h : c ∧ dx < st.width <;> simp [dateBlock, h]

theorem dateBlock_glyphs (g : GlyphCache) (bus : StateBus) (c : Bool) (dx dw stride len : Nat) (st : AppState) :
    (dateBlock g bus c dx dw stride len st).1.glyphs = (st.glyphs) := by by_cases h : c ∧ dx < st.width <;> simp [dateBlock, h]

theorem dateBlock_lastActiveWs (g : GlyphCache) (bus : StateBus) (c : Bool) (dx dw stride len : Nat) (st : AppState) :
    (dateBlock g bus c dx dw stride len st).1.lastActiveWs = (st.lastActiveWs) := by by_cases h : c ∧ dx < st.width <;> simp [dateBlock, h]

theorem dateBlock_lastWorkspaces (g : GlyphCache) (bus : StateBus) (c : Bool) (dx dw stride len : Nat) (st : AppState) :
    (dateBlock g bus c dx dw stride len st).1.lastWorkspaces = (st.lastWorkspaces) := by by_cases h : c ∧ dx < st.width <;> simp [dateBlock, h]

theorem dateBlock_lastH (g : GlyphCache) (bus : StateBus) (c : Bool) (dx dw stride len : Nat) (st : AppState) :
    (dateBlock g bus c dx dw stride len st).1.lastH = (st.lastH) := by by_cases h : c ∧ dx < st.width <;> simp [dateBlock, h]

theorem dateBlock_lastM (g : GlyphCache) (bus : StateBus) (c : Bool) (dx dw stride len : Nat) (st : AppState) :
    (dateBlock g bus c dx dw stride len st).1.lastM = (st.lastM) := by by_cases h : c ∧ dx < st.width <;> simp [dateBlock, h]

theorem dateBlock_lastDay (g : GlyphCache) (bus : StateBus) (c : Bool) (dx dw stride len : Nat) (st : AppState) :
    (dateBlock g bus c dx dw stride len st).1.lastDay = (if c ∧ dx < st.width then bus.day else st.lastDay) := by by_cases h : c ∧ dx < st.width <;> simp [dateBlock, h]

theorem dateBlock_lastMonth (g : GlyphCache) (bus : StateBus) (c : Bool) (dx dw stride len : Nat) (st : AppState) :
    (dateBlock g bus c dx dw stride len st).1.lastMonth = (if c ∧ dx < st.width then bus.month else st.lastMonth) := by by_cases h : c ∧ dx < st.width <;> simp [dateBlock, h]

theorem dateBlock_lastYear (g : GlyphCache) (bus : StateBus) (c : Bool) (dx dw stride len : Nat) (st : AppState) :
    (dateBlock g bus c dx dw stride len st).1.lastYear = (if c ∧ dx < st.width then bus.year else st.lastYear) := by by_cases h : c ∧ dx < st.width <;> simp [dateBlock, h]

theorem dateBlock_lastBatPercent (g : GlyphCache) (bus : StateBus) (c : Bool) (dx dw stride len : Nat) (st : AppState) :
    (dateBlock g bus c dx dw stride len st).1.lastBatPercent = (st.lastBatPercent) := by by_cases h : c ∧ dx < st.width <;> simp [dateBlock, h]

theorem dateBlock_lastBatState (g : GlyphCache) (bus : StateBus) (c : Bool) (dx dw stride len : Nat) (st : AppState) :
    (dateBlock g bus c dx dw stride len st).1.lastBatState = (st.lastBatState) := by by_cases h : c ∧ dx < st.width <;> simp [dateBlock, h]

theorem dateBlock_lastBatEstM (g : GlyphCache) (bus : StateBus) (c : Bool) (dx dw stride len : Nat) (st : AppState) :
    (dateBlock g bus c dx dw stride len st).1.lastBatEstM = (st.lastBatEstM) := by by_cases h : c ∧ dx < st.width <;> simp [dateBlock, h]

theorem timeBlock_pixelsNull (g : GlyphCache) (bus : StateBus) (c : Bool) (tx tw stride len : Nat) (st : AppState) :
    (timeBlock g bus c tx tw stride len st).1.pixelsNull = (st.pixelsNull) := by by_cases h : c ∧ tx < st.width <;> simp [timeBlock, h]

theorem timeBlock_width (g : GlyphCache) (bus : StateBus) (c : Bool) (tx tw stride len : Nat) (st : AppState) :
    (timeBlock g bus c tx tw stride len st).1.width = (st.width) := by by_cases h : c ∧ tx < st.width <;> simp [timeBlock, h]

theorem timeBlock_height (g : GlyphCache) (bus : StateBus) (c : Bool) (tx tw stride len : Nat) (st : AppState) :
    (timeBlock g bus c tx tw stride len st).1.height = (st.height) := by by_cases h : c ∧ tx < st.width <;> simp [timeBlock, h]

theorem timeBlock_forceFullRedraw (g : GlyphCache) (bus : StateBus) (c : Bool) (tx tw stride len : Nat) (st : AppState) :
    (timeBlock g bus c tx tw stride len st).1.forceFullRedraw = (st.forceFullRedraw) := by by_cases h : c ∧ tx < st.width <;> simp [timeBlock, h]

theorem timeBlock_glyphs (g : GlyphCache) (bus : StateBus) (c : Bool) (tx tw stride len : Nat) (st : AppState) :
    (timeBlock g bus c tx tw stride len st).1.glyphs = (st.glyphs) := by by_cases h : c ∧ tx < st.width <;> simp [timeBlock, h]

theorem timeBlock_lastActiveWs (g : GlyphCache) (bus : StateBus) (c : Bool) (tx tw stride len : Nat) (st : AppState) :
    (timeBlock g bus c tx tw stride len st).1.lastActiveWs = (st.lastActiveWs) := by by_cases h : c ∧ tx < st.width <;> simp [timeBlock, h]

theorem timeBlock_lastWorkspaces (g : GlyphCache) (bus : StateBus) (c : Bool) (tx tw stride len : Nat) (st : AppState) :
    (timeBlock g bus c tx tw stride len st).1.lastWorkspaces = (st.lastWorkspaces) := by by_cases h : c ∧ tx < st.width <;> simp [timeBlock, h]

theorem timeBlock_lastH (g : GlyphCache) (bus : StateBus) (c : Bool) (tx tw stride len : Nat) (st : AppState) :
    (timeBlock g bus c tx tw stride len st).1.lastH = (if c ∧ tx < st.width then bus.h else st.lastH) := by by_cases h : c ∧ tx < st.width <;> simp [timeBlock, h]

theorem timeBlock_lastM (g : GlyphCache) (bus : StateBus) (c : Bool) (tx tw stride len : Nat) (st : AppState) :
    (timeBlock g bus c tx tw stride len st).1.lastM = (if c ∧ tx < st.width then bus.m else st.lastM) := by by_cases h : c ∧ tx < st.width <;> simp [timeBlock, h]

theorem timeBlock_lastDay (g : GlyphCache) (bus : StateBus) (c : Bool) (tx tw stride len : Nat) (st : AppState) :
    (timeBlock g bus c tx tw stride len st).1.lastDay = (st.lastDay) := by by_cases h : c ∧ tx < st.width <;> simp [timeBlock, h]

theorem timeBlock_lastMonth (g : GlyphCache) (bus : StateBus) (c : Bool) (tx tw stride len : Nat) (st : AppState) :
    (timeBlock g bus c tx tw stride len st).1.lastMonth = (st.lastMonth) := by by_cases h : c ∧ tx < st.width <;> simp [timeBlock, h]

theorem timeBlock_lastYear (g : GlyphCache) (bus : StateBus) (c : Bool) (tx tw stride len : Nat) (st : AppState) :
    (timeBlock g bus c tx tw stride len st).1.lastYear = (st.lastYear) := by by_cases h : c ∧ tx < st.width <;> simp [timeBlock, h]

theorem timeBlock_lastBatPercent (g : GlyphCache) (bus : StateBus) (c : Bool) (tx tw stride len : Nat) (st : AppState) :
    (timeBlock g bus c tx tw stride len st).1.lastBatPercent = (st.lastBatPercent) := by by_cases h : c ∧ tx < st.width <;> simp [timeBlock, h]

theorem timeBlock_lastBatState (g : GlyphCache) (bus : StateBus) (c : Bool) (tx tw stride len : Nat) (st : AppState) :
    (timeBlock g bus c tx tw stride len st).1.lastBatState = (st.lastBatState) := by by_cases h : c ∧ tx < st.width <;> simp [timeBlock, h]

theorem timeBlock_lastBatEstM (g : GlyphCache) (bus : StateBus) (c : Bool) (tx tw stride len : Nat) (st : AppState) :
    (timeBlock g bus c tx tw stride len st).1.lastBatEstM = (st.lastBatEstM) := by by_cases h : c ∧ tx < st.width <;> simp [timeBlock, h]

theorem batBlock_pixelsNull (g : GlyphCache) (bus : StateBus) (c : Bool) (bx bw stride len : Nat) (st : AppState) :
    (batBlock g bus c bx bw stride len st).1.pixelsNull = (st.pixelsNull) := by by_cases h : c ∧ bx < st.width ∧ bus.batState ≠ 255 <;> simp [batBlock, h]

theorem batBlock_width (g : GlyphCache) (bus : StateBus) (c : Bool) (bx bw stride len : Nat) (st : AppState) :
    (batBlock g bus c bx bw stride len st).1.width = (st.width) := by by_cases h : c ∧ bx < st.width ∧ bus.batState ≠ 255 <;> simp [batBlock, h]

theorem batBlock_height (g : GlyphCache) (bus : StateBus) (c : Bool) (bx bw stride len : Nat) (st : AppState) :
    (batBlock g bus c bx bw stride len st).1.height = (st.height) := by by_cases h : c ∧ bx < st.width ∧ bus.batState ≠ 255 <;> simp [batBlock, h]

theorem batBlock_forceFullRedraw (g : GlyphCache) (bus : StateBus) (c : Bool) (bx bw stride len : Nat) (st : AppState) :
    (batBlock g bus c bx bw stride len st).1.forceFullRedraw = (st.forceFullRedraw) := by by_cases h : c ∧ bx < st.width ∧ bus.batState ≠ 255 <;> simp [batBlock, h]

theorem batBlock_glyphs (g : GlyphCache) (bus : StateBus) (c : Bool) (bx bw stride len : Nat) (st : AppState) :
    (batBlock g bus c bx bw stride len st).1.glyphs = (st.glyphs) := by by_cases h : c ∧ bx < st.width ∧ bus.batState ≠ 255 <;> simp [batBlock, h]

theorem batBlock_lastActiveWs (g : GlyphCache) (bus : StateBus) (c : Bool) (bx bw stride len : Nat) (st : AppState) :
    (batBlock g bus c bx bw stride len st).1.lastActiveWs = (st.lastActiveWs) := by by_cases h : c ∧ bx < st.width ∧ bus.batState ≠ 255 <;> simp [batBlock, h]

theorem batBlock_lastWorkspaces (g : GlyphCache) (bus : StateBus) (c : Bool) (bx bw stride len : Nat) (st : AppState) :
    (batBlock g bus c bx bw stride len st).1.lastWorkspaces = (st.lastWorkspaces) := by by_cases h : c ∧ bx < st.width ∧ bus.batState ≠ 255 <;> simp [batBlock, h]

theorem batBlock_lastH (g : GlyphCache) (bus : StateBus) (c : Bool) (bx bw stride len : Nat) (st : AppState) :
    (batBlock g bus c bx bw stride len st).1.lastH = (st.lastH) := by by_cases h : c ∧ bx < st.width ∧ bus.batState ≠ 255 <;> simp [batBlock, h]

theorem batBlock_lastM (g : GlyphCache) (bus : StateBus) (c : Bool) (bx bw stride len : Nat) (st : AppState) :
    (batBlock g bus c bx bw stride len st).1.lastM = (st.lastM) := by by_cases h : c ∧ bx < st.width ∧ bus.batState ≠ 255 <;> simp [batBlock, h]

theorem batBlock_lastDay (g : GlyphCache) (bus : StateBus) (c : Bool) (bx bw stride len : Nat) (st : AppState) :
    (batBlock g bus c bx bw stride len st).1.lastDay = (st.lastDay) := by by_cases h : c ∧ bx < st.width ∧ bus.batState ≠ 255 <;> simp [batBlock, h]

theorem batBlock_lastMonth (g : GlyphCache) (bus : StateBus) (c : Bool) (bx bw stride len : Nat) (st : AppState) :
    (batBlock g bus c bx bw stride len st).1.lastMonth = (st.lastMonth) := by by_cases h : c ∧ bx < st.width ∧ bus.batState ≠ 255 <;> simp [batBlock, h]

theorem batBlock_lastYear (g : GlyphCache) (bus : StateBus) (c : Bool) (bx bw stride len : Nat) (st : AppState) :
    (batBlock g bus c bx bw stride len st).1.lastYear = (st.lastYear) := by by_cases h : c ∧ bx < st.width ∧ bus.batState ≠ 255 <;> simp [batBlock, h]

theorem batBlock_lastBatPercent (g : GlyphCache) (bus : StateBus) (c : Bool) (bx bw stride len : Nat) (st : AppState) :
    (batBlock g bus c bx bw stride len st).1.lastBatPercent = (if c ∧ bx < st.width ∧ bus.batState ≠ 255 then bus.batPercent else st.lastBatPercent) := by by_cases h : c ∧ bx < st.width ∧ bus.batState ≠ 255 <;> simp [batBlock, h]

theorem batBlock_lastBatState (g : GlyphCache) (bus : StateBus) (c : Bool) (bx bw stride len : Nat) (st : AppState) :
    (batBlock g bus c bx bw stride len st).1.lastBatState = (if c ∧ bx < st.width ∧ bus.batState ≠ 255 then bus.batState else st.lastBatState) := by by_cases h : c ∧ bx < st.width ∧ bus.batState ≠ 255 <;> simp [batBlock, h]

theorem batBlock_lastBatEstM (g : GlyphCache) (bus : StateBus) (c : Bool) (bx bw stride len : Nat) (st : AppState) :
    (batBlock g bus c bx bw stride len st).1.lastBatEstM = (if c ∧ bx < st.width ∧ bus.batState ≠ 255 then bus.batEstM else st.lastBatEstM) := by by_cases h : c ∧ bx < st.width ∧ bus.batState ≠ 255 <;> simp [batBlock, h]

theorem wsBlock_snd (g : GlyphCache) (bus : StateBus) (c : Bool) (stride : Nat)
    (st : AppState) :
    (wsBlock g bus c stride st).2 =
      (if c then [((0, 0, min 600 st.width, st.height) : Rect)] else []) := by
  cases c <;> rfl

theorem dateBlock_snd (g : GlyphCache) (bus : StateBus) (c : Bool)
    (dx dw stride len : Nat) (st : AppState) :
    (dateBlock g bus c dx dw stride len st).2 =
      (if c ∧ dx < st.width then
        (if 0 < min dw (st.width - dx) then
          [((dx, 0, min dw (st.width - dx), st.height) : Rect)] else [])
       else []) := by
  by_cases h : c ∧ dx < st.width <;> simp [dateBlock, h]

theorem timeBlock_snd (g : GlyphCache) (bus : StateBus) (c : Bool)
    (tx tw stride len : Nat) (st : AppState) :
    (timeBlock g bus c tx tw stride len st).2 =
      (if c ∧ tx < st.width then
        (if 0 < min tw (st.width - tx) then
          [((tx, 0, min tw (st.width - tx), st.height) : Rect)] else [])
       else []) := by
  by_cases h : c ∧ tx < st.width <;> simp [timeBlock, h]

theorem batBlock_snd (g : GlyphCache) (bus : StateBus) (c : Bool)
    (bx bw stride len : Nat) (st : AppState) :
    (batBlock g bus c bx bw stride len st).2 =
      (if c ∧ bx < st.width ∧ bus.batState ≠ 255 then
        (if 0 < min bw (st.width - bx) then
          [((bx, 0, min bw (st.width - bx), st.height) : Rect)] else [])
       else []) := by
  by_cases h : c ∧ bx < st.width ∧ bus.batState ≠ 255 <;> simp [batBlock, h]

/-! ### Glyph-pass projections -/

theorem glyphPass_pixelsNull (g : GlyphCache) (bus : StateBus) (st : AppState) :
    (glyphPass g bus st).1.pixelsNull = st.pixelsNull := by
  unfold glyphPass
  simp only [batBlock_pixelsNull, timeBlock_pixelsNull, dateBlock_pixelsNull, wsBlock_pixelsNull]

theorem glyphPass_width (g : GlyphCache) (bus : StateBus) (st : AppState) :
    (glyphPass g bus st).1.width = st.width := by
  unfold glyphPass
  simp only [batBlock_width, timeBlock_width, dateBlock_width, wsBlock_width]

theorem glyphPass_height (g : GlyphCache) (bus : StateBus) (st : AppState) :
    (glyphPass g bus st).1.height = st.height := by
  unfold glyphPass
  simp only [batBlock_height, timeBlock_height, dateBlock_height, wsBlock_height]

theorem glyphPass_glyphs (g : GlyphCache) (bus : StateBus) (st : AppState) :
    (glyphPass g bus st).1.glyphs = st.glyphs := by
  unfold glyphPass
  simp only [batBlock_glyphs, timeBlock_glyphs, dateBlock_glyphs, wsBlock_glyphs]

theorem glyphPass_forceFullRedraw (g : GlyphCache) (bus : StateBus) (st : AppState) :
    (glyphPass g bus st).1.forceFullRedraw = false := by
  unfold glyphPass
  simp only []

theorem glyphPass_lastActiveWs (g : GlyphCache) (bus : StateBus) (st : AppState) :
    (glyphPass g bus st).1.lastActiveWs = (if wsChangedB st bus then bus.activeWs else st.lastActiveWs) := by
  unfold glyphPass
  simp only [batBlock_lastActiveWs, timeBlock_lastActiveWs, dateBlock_lastActiveWs, wsBlock_lastActiveWs]

theorem glyphPass_lastWorkspaces (g : GlyphCache) (bus : StateBus) (st : AppState) :
    (glyphPass g bus st).1.lastWorkspaces = (if wsChangedB st bus then bus.workspaces else st.lastWorkspaces) := by
  unfold glyphPass
  simp only [batBlock_lastWorkspaces, timeBlock_lastWorkspaces, dateBlock_lastWorkspaces, wsBlock_lastWorkspaces]

theorem glyphPass_lastDay (g : GlyphCache) (bus : StateBus) (st : AppState) :
    (glyphPass g bus st).1.lastDay = (if dateChangedB st bus ∧ dateSlotXOf g st.width < st.width then bus.day else st.lastDay) := by
  unfold glyphPass
  simp only [batBlock_lastDay, timeBlock_lastDay, dateBlock_lastDay, wsBlock_width, wsBlock_lastDay]

theorem glyphPass_lastMonth (g : GlyphCache) (bus : StateBus) (st : AppState) :
    (glyphPass g bus st).1.lastMonth = (if dateChangedB st bus ∧ dateSlotXOf g st.width < st.width then bus.month else st.lastMonth) := by
  unfold glyphPass
  simp only [batBlock_lastMonth, timeBlock_lastMonth, dateBlock_lastMonth, wsBlock_width, wsBlock_lastMonth]

theorem glyphPass_lastYear (g : GlyphCache) (bus : StateBus) (st : AppState) :
    (glyphPass g bus st).1.lastYear = (if dateChangedB st bus ∧ dateSlotXOf g st.width < st.width then bus.year else st.lastYear) := by
  unfold glyphPass
  simp only [batBlock_lastYear, timeBlock_lastYear, dateBlock_lastYear, wsBlock_width, wsBlock_lastYear]

theorem glyphPass_lastH (g : GlyphCache) (bus : StateBus) (st : AppState) :
    (glyphPass g bus st).1.lastH = (if clockChangedB st bus ∧ timeSlotXOf st.width < st.width then bus.h else st.lastH) := by
  unfold glyphPass
  simp only [batBlock_lastH, timeBlock_lastH, dateBlock_width, wsBlock_width, dateBlock_lastH, wsBlock_lastH]

theorem glyphPass_lastM (g : GlyphCache) (bus : StateBus) (st : AppState) :
    (glyphPass g bus st).1.lastM = (if clockChangedB st bus ∧ timeSlotXOf st.width < st.width then bus.m else st.lastM) := by
  unfold glyphPass
  simp only [batBlock_lastM, timeBlock_lastM, dateBlock_width, wsBlock_width, dateBlock_lastM, wsBlock_lastM]

theorem glyphPass_lastBatPercent (g : GlyphCache) (bus : StateBus) (st : AppState) :
    (glyphPass g bus st).1.lastBatPercent = (if batChangedB st bus ∧ batSlotXOf st.width < st.width ∧ bus.batState ≠ 255 then bus.batPercent else st.lastBatPercent) := by
  unfold glyphPass
  simp only [batBlock_lastBatPercent, timeBlock_width, dateBlock_width, wsBlock_width, timeBlock_lastBatPercent, dateBlock_lastBatPercent, wsBlock_lastBatPercent]

theorem glyphPass_lastBatState (g : GlyphCache) (bus : StateBus) (st : AppState) :
    (glyphPass g bus st).1.lastBatState = (if batChangedB st bus ∧ batSlotXOf st.width < st.width ∧ bus.batState ≠ 255 then bus.batState else st.lastBatState) := by
  unfold glyphPass
  simp only [batBlock_lastBatState, timeBlock_width, dateBlock_width, wsBlock_width, timeBlock_lastBatState, dateBlock_lastBatState, wsBlock_lastBatState]

theorem glyphPass_lastBatEstM (g : GlyphCache) (bus : StateBus) (st : AppState) :
    (glyphPass g bus st).1.lastBatEstM = (if batChangedB st bus ∧ batSlotXOf st.width < st.width ∧ bus.batState ≠ 255 then bus.batEstM else st.lastBatEstM) := by
  unfold glyphPass
  simp only [batBlock_lastBatEstM, timeBlock_width, dateBlock_width, wsBlock_width, timeBlock_lastBatEstM, dateBlock_lastBatEstM, wsBlock_lastBatEstM]

theorem glyphPass_snd (g : GlyphCache) (bus : StateBus) (st : AppState) :
    (glyphPass g bus st).2 =
      (if wsChangedB st bus then [((0, 0, min 600 st.width, st.height) : Rect)] else []) ++
      (if dateChangedB st bus ∧ dateSlotXOf g st.width < st.width then
        (if 0 < min (dateSlotWidthOf g) (st.width - dateSlotXOf g st.width) then
          [((dateSlotXOf g st.width, 0,
             min (dateSlotWidthOf g) (st.width - dateSlotXOf g st.width), st.height) : Rect)]
         else [])
       else []) ++
      (if clockChangedB st bus ∧ timeSlotXOf st.width < st.width then
        (if 0 < min (timeSlotWidthOf g) (st.width - timeSlotXOf st.width) then
          [((timeSlotXOf st.width, 0,
             min (timeSlotWidthOf g) (st.width - timeSlotXOf st.width), st.height) : Rect)]
         else [])
       else []) ++
      (if batChangedB st bus ∧ batSlotXOf st.width < st.width ∧ bus.batState ≠ 255 then
        (if 0 < min 160 (st.width - batSlotXOf st.width) then
          [((batSlotXOf st.width, 0, min 160 (st.width - batSlotXOf st.width),
             st.height) : Rect)]
         else [])
       else []) := by
  unfold glyphPass
  simp only [wsBlock_snd, dateBlock_snd, timeBlock_snd, batBlock_snd,
    timeBlock_width, dateBlock_width, wsBlock_width,
    timeBlock_height, dateBlock_height, wsBlock_height]

theorem wsBlock_pixelsLen (g : GlyphCache) (bus : StateBus) (c : Bool) (stride : Nat) (st : AppState) :
    (wsBlock g bus c stride st).1.pixelsLen = st.pixelsLen := by cases c <;> rfl

theorem dateBlock_pixelsLen (g : GlyphCache) (bus : StateBus) (c : Bool) (dx dw stride len : Nat) (st : AppState) :
    (dateBlock g bus c dx dw stride len st).1.pixelsLen = st.pixelsLen := by by_cases h : c ∧ dx < st.width <;> simp [dateBlock, h]

theorem timeBlock_pixelsLen (g : GlyphCache) (bus : StateBus) (c : Bool) (tx tw stride len : Nat) (st : AppState) :
    (timeBlock g bus c tx tw stride len st).1.pixelsLen = st.pixelsLen := by by_cases h : c ∧ tx < st.width <;> simp [timeBlock, h]

theorem batBlock_pixelsLen (g : GlyphCache) (bus : StateBus) (c : Bool) (bx bw stride len : Nat) (st : AppState) :
    (batBlock g bus c bx bw stride len st).1.pixelsLen = st.pixelsLen := by by_cases h : c ∧ bx < st.width ∧ bus.batState ≠ 255 <;> simp [batBlock, h]

theorem glyphPass_pixelsLen (g : GlyphCache) (bus : StateBus) (st : AppState) :
    (glyphPass g bus st).1.pixelsLen = st.pixelsLen := by
  unfold glyphPass
  simp only [batBlock_pixelsLen, timeBlock_pixelsLen, dateBlock_pixelsLen, wsBlock_pixelsLen]

theorem wsBlock_buffer (g : GlyphCache) (bus : StateBus) (c : Bool) (stride : Nat) (st : AppState) :
    (wsBlock g bus c stride st).1.buffer = st.buffer := by cases c <;> rfl

theorem dateBlock_buffer (g : GlyphCache) (bus : StateBus) (c : Bool) (dx dw stride len : Nat) (st : AppState) :
    (dateBlock g bus c dx dw stride len st).1.buffer = st.buffer := by by_cases h : c ∧ dx < st.width <;> simp [dateBlock, h]

theorem timeBlock_buffer (g : GlyphCache) (bus : StateBus) (c : Bool) (tx tw stride len : Nat) (st : AppState) :
    (timeBlock g bus c tx tw stride len st).1.buffer = st.buffer := by by_cases h : c ∧ tx < st.width <;> simp [timeBlock, h]

theorem batBlock_buffer (g : GlyphCache) (bus : StateBus) (c : Bool) (bx bw stride len : Nat) (st : AppState) :
    (batBlock g bus c bx bw stride len st).1.buffer = st.buffer := by by_cases h : c ∧ bx < st.width ∧ bus.batState ≠ 255 <;> simp [batBlock, h]

theorem glyphPass_buffer (g : GlyphCache) (bus : StateBus) (st : AppState) :
    (glyphPass g bus st).1.buffer = st.buffer := by
  unfold glyphPass
  simp only [batBlock_buffer, timeBlock_buffer, dateBlock_buffer, wsBlock_buffer]

theorem wsBlock_configured (g : GlyphCache) (bus : StateBus) (c : Bool) (stride : Nat) (st : AppState) :
    (wsBlock g bus c stride st).1.configured = st.configured := by cases c <;> rfl

theorem dateBlock_configured (g : GlyphCache) (bus : StateBus) (c : Bool) (dx dw stride len : Nat) (st : AppState) :
    (dateBlock g bus c dx dw stride len st).1.configured = st.configured := by by_cases h : c ∧ dx < st.width <;> simp [dateBlock, h]

theorem timeBlock_configured (g : GlyphCache) (bus : StateBus) (c : Bool) (tx tw stride len : Nat) (st : AppState) :
    (timeBlock g bus c tx tw stride len st).1.configured = st.configured := by by_cases h : c ∧ tx < st.width <;> simp [timeBlock, h]

theorem batBlock_configured (g : GlyphCache) (bus : StateBus) (c : Bool) (bx bw stride len : Nat) (st : AppState) :
    (batBlock g bus c bx bw stride len st).1.configured = st.configured := by by_cases h : c ∧ bx < st.width ∧ bus.batState ≠ 255 <;> simp [batBlock, h]

theorem glyphPass_configured (g : GlyphCache) (bus : StateBus) (st : AppState) :
    (glyphPass g bus st).1.configured = st.configured := by
  unfold glyphPass
  simp only [batBlock_configured, timeBlock_configured, dateBlock_configured, wsBlock_configured]

/-! ### Second-pass flag lemmas and the idempotence theorem -/

theorem glyphPass_wsChanged_false (g : GlyphCache) (bus : StateBus) (st : AppState) :
    wsChangedB (glyphPass g bus st).1 bus = false := by
  unfold wsChangedB
  rw [glyphPass_forceFullRedraw, glyphPass_lastActiveWs, glyphPass_lastWorkspaces]
  by_cases c : wsChangedB st bus
  · simp [c]
  · have c' : wsChangedB st bus = false := by simpa using c
    unfold wsChangedB at c'
    simp only [Bool.or_eq_false_iff] at c'
    simp [c, c'.1.2, c'.2]

theorem glyphPass_date_clipped (g : GlyphCache) (bus : StateBus) (st : AppState) :
    ¬(dateChangedB (glyphPass g bus st).1 bus ∧
      dateSlotXOf g (glyphPass g bus st).1.width < (glyphPass g bus st).1.width) := by
  rintro ⟨hd, hx⟩
  rw [glyphPass_width] at hx
  unfold dateChangedB at hd
  rw [glyphPass_forceFullRedraw, glyphPass_lastDay, glyphPass_lastMonth,
    glyphPass_lastYear] at hd
  by_cases c : dateChangedB st bus ∧ dateSlotXOf g st.width < st.width
  · simp [c] at hd
  · rw [if_neg c, if_neg c, if_neg c] at hd
    have hdc : dateChangedB st bus = false := by
      by_cases hdd : dateChangedB st bus
      · exact absurd ⟨hdd, hx⟩ c
      · simpa using hdd
    unfold dateChangedB at hdc
    simp only [Bool.or_eq_false_iff] at hdc
    simp [hdc.1.1.2, hdc.1.2, hdc.2] at hd

theorem glyphPass_clock_clipped (g : GlyphCache) (bus : StateBus) (st : AppState) :
    ¬(clockChangedB (glyphPass g bus st).1 bus ∧
      timeSlotXOf (glyphPass g bus st).1.width < (glyphPass g bus st).1.width) := by
  rintro ⟨hd, hx⟩
  rw [glyphPass_width] at hx
  unfold clockChangedB at hd
  rw [glyphPass_forceFullRedraw, glyphPass_lastH, glyphPass_lastM] at hd
  by_cases c : clockChangedB st bus ∧ timeSlotXOf st.width < st.width
  · simp [c] at hd
  · rw [if_neg c, if_neg c] at hd
    have hdc : clockChangedB st bus = false := by
      by_cases hdd : clockChangedB st bus
      · exact absurd ⟨hdd, hx⟩ c
      · simpa using hdd
    unfold clockChangedB at hdc
    simp only [Bool.or_eq_false_iff] at hdc
    simp [hdc.1.2, hdc.2] at hd

theorem glyphPass_bat_clipped (g : GlyphCache) (bus : StateBus) (st : AppState) :
    ¬(batChangedB (glyphPass g bus st).1 bus ∧
      batSlotXOf (glyphPass g bus st).1.width < (glyphPass g bus st).1.width ∧
      bus.batState ≠ 255) := by
  rintro ⟨hd, hx⟩
  rw [glyphPass_width] at hx
  unfold batChangedB at hd
  rw [glyphPass_forceFullRedraw, glyphPass_lastBatPercent, glyphPass_lastBatState,
    glyphPass_lastBatEstM] at hd
  by_cases c : batChangedB st bus ∧ batSlotXOf st.width < st.width ∧ bus.batState ≠ 255
  · simp [c] at hd
  · rw [if_neg c, if_neg c, if_neg c] at hd
    have hdc : batChangedB st bus = false := by
      by_cases hdd : batChangedB st bus
      · exact absurd ⟨hdd, hx⟩ c
      · simpa using hdd
    unfold batChangedB at hdc
    simp only [Bool.or_eq_false_iff] at hdc
    simp [hdc.1.1.2, hdc.1.2, hdc.2] at hd

/-- A repaint pass emits no damage when the workspace flag is clear and each
of the other three slots is either unchanged or clipped out by its guard. -/
theorem drawBar_damage_nil (st : AppState) (bus : StateBus)
    (h : ∀ g, st.glyphs = some g →
      wsChangedB st bus = false ∧
      ¬(dateChangedB st bus ∧ dateSlotXOf g st.width < st.width) ∧
      ¬(clockChangedB st bus ∧ timeSlotXOf st.width < st.width) ∧
      ¬(batChangedB st bus ∧ batSlotXOf st.width < st.width ∧ bus.batState ≠ 255)) :
    (drawBar st bus).2 = [] := by
  unfold drawBar
  split
  · rfl
  split
  · rfl
  split
  · rfl
  · rename_i g hg
    obtain ⟨hws, hdate, hclock, hbat⟩ := h g hg
    rw [glyphPass_snd]
    simp [hws, hdate, hclock, hbat]

/-- C6: two consecutive repaint passes against the same published state yield
an empty damage set on the second pass, for every starting renderer state. -/
theorem c6_idempotent_damage (st : AppState) (bus : StateBus) :
    (drawBar (drawBar st bus).1 bus).2 = [] := by
  by_cases hnull : (st.pixelsNull || st.width == 0 || st.height == 0) = true
  · have h1 : drawBar st bus = (st, []) := by
      unfold drawBar
      rw [if_pos hnull]
    rw [h1]
    show (drawBar st bus).2 = []
    rw [h1]
  · by_cases hearly : (!wsChangedB st bus && !clockChangedB st bus
        && !dateChangedB st bus && !batChangedB st bus) = true
    · have h1 : drawBar st bus = (st, []) := by
        unfold drawBar
        rw [if_neg hnull, if_pos hearly]
      rw [h1]
      show (drawBar st bus).2 = []
      rw [h1]
    · cases hg : st.glyphs with
      | none =>
        have h1 : drawBar st bus = (st, []) := by
          unfold drawBar
          rw [if_neg hnull, if_neg hearly, hg]
        rw [h1]
        show (drawBar st bus).2 = []
        rw [h1]
      | some g =>
        have h1 : drawBar st bus = glyphPass g bus st := by
          unfold drawBar
          rw [if_neg hnull, if_neg hearly, hg]
        rw [h1]
        apply drawBar_damage_nil
        intro g' hg'
        rw [glyphPass_glyphs, hg] at hg'
        cases hg'
        exact ⟨glyphPass_wsChanged_false g bus st, glyphPass_date_clipped g bus st,
          glyphPass_clock_clipped g bus st, glyphPass_bat_clipped g bus st⟩

/-! ### Configure-event theorems -/

/-- When the buffer is live, the force flag is set and a glyph cache is
present, a repaint pass is exactly the glyph pass. -/
theorem drawBar_force_glyph (st : AppState) (bus : StateBus) (g : GlyphCache)
    (hg : st.glyphs = some g) (hforce : st.forceFullRedraw = true)
    (hnull : st.pixelsNull = false) (hw : st.width ≠ 0) (hh : st.height ≠ 0) :
    drawBar st bus = glyphPass g bus st := by
  have h0 : (st.pixelsNull || st.width == 0 || st.height == 0) = false := by
    simp [hnull, hw, hh]
  have hws : wsChangedB st bus = true := by
    unfold wsChangedB
    simp [hforce]
  unfold drawBar
  rw [if_neg (by simp [h0]), if_neg (by simp [hws]), hg]

/-- C2 amended: a configure event with width 0 is treated as width 1920: when
the size actually changes, the mapping is reallocated with
`1920 * 4 * height` bytes and the `wl_buffer` is created with width 1920 and
stride `1920 * 4`; a full redraw is forced, and the resulting repaint emits
per-slot damage rectangles beginning with the workspace-area rectangle
`(0, 0, 600, height)` — not a single rectangle covering the whole buffer. -/
theorem c2_configure_width0 (st : AppState) (bus : StateBus) (h : Nat)
    (g : GlyphCache) (hg : st.glyphs = some g) (hh : h ≠ 0)
    (hresize : st.width ≠ 1920 ∨ st.height ≠ h) :
    (configureEvent st bus 0 h).1.width = 1920 ∧
    (configureEvent st bus 0 h).1.height = h ∧
    (configureEvent st bus 0 h).1.pixelsLen = 1920 * 4 * h ∧
    (configureEvent st bus 0 h).1.buffer = some ⟨1920, h, 1920 * 4⟩ ∧
    (configureEvent st bus 0 h).2.head? = some (0, 0, 600, h) := by
  set st2 : AppState := { st with
    buffer := some ⟨1920, h, 1920 * 4⟩, width := 1920, height := h,
    pixels := fun _ => 0, pixelsNull := false, pixelsLen := 1920 * 4 * h,
    configured := true, forceFullRedraw := true } with hst2
  have hg2 : st2.glyphs = some g := by rw [hst2]; exact hg
  have hcfg : configureEvent st bus 0 h = drawBar st2 bus := by
    rw [hst2]
    unfold configureEvent
    rw [if_pos (show (0 : Nat) = 0 from rfl), if_neg hh]
    unfold configureApply
    rw [if_pos hresize]
    unfold releaseBuffers
    by_cases hi : (!st.pixelsNull) = true ∧ 0 < st.pixelsLen
    · rw [if_pos hi]
      rfl
    · rw [if_neg hi]
      rfl
  have hws2 : wsChangedB st2 bus = true := by
    rw [hst2]
    unfold wsChangedB
    simp
  rw [hcfg, drawBar_force_glyph st2 bus g hg2 (by rw [hst2]) (by rw [hst2])
    (by rw [hst2]; norm_num) (by rw [hst2]; exact hh)]
  refine ⟨?_, ?_, ?_, ?_, ?_⟩
  · rw [glyphPass_width, hst2]
  · rw [glyphPass_height, hst2]
  · rw [glyphPass_pixelsLen, hst2]
  · rw [glyphPass_buffer, hst2]
  · rw [glyphPass_snd, hws2]
    rw [hst2]
    simp

theorem c2_configure_width0_witness :
    ((configureEvent (AppState.new (some witnessCache)) busCE 0 28).1.width = 1920 ∧
     (configureEvent (AppState.new (some witnessCache)) busCE 0 28).1.height = 28 ∧
     (configureEvent (AppState.new (some witnessCache)) busCE 0 28).1.pixelsLen =
       1920 * 4 * 28 ∧
     (configureEvent (AppState.new (some witnessCache)) busCE 0 28).1.buffer =
       some ⟨1920, 28, 1920 * 4⟩ ∧
     (configureEvent (AppState.new (some witnessCache)) busCE 0 28).2.head? =
       some (0, 0, 600, 28)) :=
  c2_configure_width0 (AppState.new (some witnessCache)) busCE 28 witnessCache rfl
    (by decide) (Or.inl (by decide))

/-- C2 counterexample: from the fresh state, a configure event with width 0
(and height 0, defaulting to 28) repaints everything, yet no produced damage
rectangle covers the whole 1920 × 28 buffer (a covering rectangle would need
x = 0, y = 0, width ≥ 1920 and height ≥ 28). -/
theorem c2_counterexample :
    ((configureEvent (AppState.new (some witnessCache)) busCE 0 0).2.all
      fun r => decide ¬(r.1 = 0 ∧ r.2.1 = 0 ∧ 1920 ≤ r.2.2.1 ∧ 28 ≤ r.2.2.2)) = true := by
  decide

end Leanbar
